import Mathlib

/-!
Verification development for the data-quality-analyzer repository.

The Python sources under `src/dqa/` are shallowly embedded here:
- raw cells are a tagged union (null / number / text), numbers as rationals;
- a DataFrame is a list of column names plus row-major cells;
- the expression engine (`src/dqa/rules.py`) is embedded with its tokenizer,
  recursive-descent parse functions and AST evaluator;
- pandas semantics used by the code are modelled where the code relies on
  them: comparisons on numeric (float64) columns treat a null as NaN
  (comparisons yield False, `!=` yields True, never an error), while on
  object columns a null is `None` (ordering comparisons raise TypeError);
  the bitwise operators `~`, `&` and `|` operate logically on boolean
  series, bitwise (two's complement) on int64 series — an all-integer,
  null-free column — and raise TypeError on float64 or object operands;
  `df.duplicated(subset=[])` raises ValueError;
- Python exceptions are modelled by `Except PyErr`; the code distinguishes
  its own `RulesError` (caught by the consistency check) from other
  exceptions such as `TypeError`, `IndexError`, `ValueError` and
  `re.error` (never caught).
-/

namespace DQA

/-- Raw cell of a dataset: missing value, numeric value (modelled as a
rational) or a text value. -/
inductive Cell where
  | null : Cell
  | num (q : ℚ) : Cell
  | str (s : String) : Cell
deriving DecidableEq, Repr

/-- True when the cell is a missing value (`pd.isna`). -/
def Cell.isNullC : Cell → Bool
  | .null => true
  | _ => false

/-- True when the cell holds a number. -/
def Cell.isNumC : Cell → Bool
  | .num _ => true
  | _ => false

/-- True when the cell holds an integer value.  A column whose cells all
satisfy this (no nulls, no text, whole numbers only) is what `read_csv`
stores with dtype int64; such columns support Python's bitwise
operators where float64 and object columns raise `TypeError`. -/
def Cell.isIntCell : Cell → Bool
  | .num q => decide (q.den = 1)
  | _ => false

/-- Integer value of an integral numeric cell (0 on other cells; only
applied under `isIntCell`). -/
def cellInt : Cell → ℤ
  | .num q => q.num
  | _ => 0

/-- Dataset: ordered column names plus row-major cells.  A well-formed frame
has every row of length `names.length`; cell access defaults to null, as
pandas rows are always rectangular. -/
structure DF where
  names : List String
  rows : List (List Cell)
deriving DecidableEq, Repr

/-- Number of rows (`len(df)`). -/
def DF.nRows (df : DF) : Nat := df.rows.length

/-- Cells of the column at positional index `i`. -/
def DF.colAt (df : DF) (i : Nat) : List Cell :=
  df.rows.map (fun r => r.getD i Cell.null)

/-- Cells of the named column, when the name exists (`df[name]`). -/
def DF.colCells (df : DF) (name : String) : Option (List Cell) :=
  (df.names.indexOf? name).map df.colAt

/-- Python exceptions relevant to the profiler: the repository's own
`RulesError`; `TypeError` (pandas raises it when a comparison or bitwise
operator gets incompatible operand types); `IndexError` (positional
indexing with out-of-bounds integers); `ValueError` (unpacking inside
`DataFrame.duplicated` with an empty subset); and `re.error` (compiling
an invalid regular expression in `Series.str.match`).  Only `RulesError`
is ever caught by the repository. -/
inductive PyErr where
  | rulesError (msg : String) : PyErr
  | typeError (msg : String) : PyErr
  | indexError (msg : String) : PyErr
  | valueError (msg : String) : PyErr
  | reError (msg : String) : PyErr
deriving DecidableEq, Repr

/-- Token kinds of `_TOKEN_REGEX` in `src/dqa/rules.py`; `AND`/`OR` arise
from the keyword rewrite in `tokenize`. -/
inductive TokKind where
  | NUMBER | STRING | OP | LPAREN | RPAREN | COMMA | IDENT | AND | OR
deriving DecidableEq, Repr

/-- A token is its kind together with the matched source text. -/
abbrev Token := TokKind × String

/-- The single-quote character (written via its code point to keep the
source free of quote escapes). -/
def sq : Char := Char.ofNat 39

/-- Characters allowed after the first character of an identifier
(`[A-Za-z0-9_]`). -/
def isIdentChar (c : Char) : Bool := c.isAlpha || c.isDigit || c = '_'

/-- Lowercasing through the character list (Python `str.lower`;
`String.toLower` itself is defined by well-founded recursion and does not
reduce definitionally). -/
def strLower (s : String) : String := String.mk (s.toList.map Char.toLower)

/-- Whitespace trim through the character list (Python `str.strip`). -/
def strTrim (s : String) : String :=
  String.mk (((s.toList.dropWhile Char.isWhitespace).reverse.dropWhile
    Char.isWhitespace).reverse)

/-- Display name of a token kind, used in parser error messages. -/
def kindName : TokKind → String
  | .NUMBER => "NUMBER"
  | .STRING => "STRING"
  | .OP => "OP"
  | .LPAREN => "LPAREN"
  | .RPAREN => "RPAREN"
  | .COMMA => "COMMA"
  | .IDENT => "IDENT"
  | .AND => "AND"
  | .OR => "OR"

/-- Decidable equality of modelled Python results. -/
instance {e a : Type} [DecidableEq e] [DecidableEq a] : DecidableEq (Except e a) := fun x y =>
  match x, y with
  | .error u, .error v =>
    decidable_of_iff (u = v) ⟨fun h => by rw [h], fun h => by injection h⟩
  | .ok u, .ok v =>
    decidable_of_iff (u = v) ⟨fun h => by rw [h], fun h => by injection h⟩
  | .error _, .ok _ => isFalse (fun h => by injection h)
  | .ok _, .error _ => isFalse (fun h => by injection h)

/-- Longest match of one token of `_TOKEN_REGEX` at the head of the input.
Returns the kind, the matched characters and the remaining input; `none`
when no alternative of the regex matches (the tokenizer then raises).
The alternatives have pairwise disjoint first-character classes, so the
regex's leftmost-alternative order is immaterial. -/
def matchTok (c : Char) (cs : List Char) : Option (TokKind × List Char × List Char) :=
  if c.isDigit then
    -- NUMBER: \d+(\.\d+)?
    match (c :: cs).dropWhile Char.isDigit with
    | d :: r2 =>
      if d = '.' && (r2.headD ' ').isDigit then
        some (.NUMBER, (c :: cs).takeWhile Char.isDigit ++ d :: r2.takeWhile Char.isDigit,
          r2.dropWhile Char.isDigit)
      else some (.NUMBER, (c :: cs).takeWhile Char.isDigit, (c :: cs).dropWhile Char.isDigit)
    | [] => some (.NUMBER, (c :: cs).takeWhile Char.isDigit, [])
  else if c = sq || c = '"' then
    -- STRING: a quote, any run of non-quote characters, the closing quote
    match cs.dropWhile (fun x => x ≠ c) with
    | q :: rest => some (.STRING, c :: (cs.takeWhile (fun x => x ≠ c) ++ [q]), rest)
    | [] => none
  else if c = '<' || c = '>' then
    match cs with
    | '=' :: rest => some (.OP, [c, '='], rest)
    | _ => some (.OP, [c], cs)
  else if c = '=' || c = '!' then
    match cs with
    | '=' :: rest => some (.OP, [c, '='], rest)
    | _ => none
  else if c = '(' then some (.LPAREN, [c], cs)
  else if c = ')' then some (.RPAREN, [c], cs)
  else if c = ',' then some (.COMMA, [c], cs)
  else if c.isAlpha || c = '_' then
    some (.IDENT, c :: cs.takeWhile isIdentChar, cs.dropWhile isIdentChar)
  else none

/-- One scanning pass of `tokenize`: skip whitespace, match a token, rewrite
the `and`/`or` keywords, or raise `RulesError` on an unmatched character.
`fuel` bounds the recursion; `tokenize` supplies enough for any input. -/
def tokenizeAux : Nat → List Char → Except PyErr (List Token)
  | 0, _ => .error (.rulesError "tokenizer recursion limit")
  | _ + 1, [] => .ok []
  | fuel + 1, c :: cs =>
    if c.isWhitespace then tokenizeAux fuel cs
    else
      match matchTok c cs with
      | none => .error (.rulesError ("Invalid token near: " ++ String.mk ((c :: cs).take 10)))
      | some (k, tk, rest) =>
        match tokenizeAux fuel rest with
        | .error e => .error e
        | .ok toks =>
          .ok ((if k = .IDENT && strLower (String.mk tk) = "and" then .AND
                else if k = .IDENT && strLower (String.mk tk) = "or" then .OR
                else k, String.mk tk) :: toks)

/-- Embeds `tokenize` of `src/dqa/rules.py`. -/
def tokenize (expr : String) : Except PyErr (List Token) :=
  tokenizeAux (expr.toList.length + 1) expr.toList

/-- Expression AST built by the parse functions (tagged tuples in the
source). -/
inductive Ast where
  | identN (name : String) : Ast
  | numberN (q : ℚ) : Ast
  | stringN (s : String) : Ast
  | callN (f : String) (args : List Ast) : Ast
  | cmpN (op : String) (l r : Ast) : Ast
  | andN (l r : Ast) : Ast
  | orN (l r : Ast) : Ast
deriving Repr

/-- Numeric value of a digit run (most significant first). -/
def digitsVal (ds : List Char) : ℚ :=
  ds.foldl (fun a c => a * 10 + (c.toNat - 48 : ℕ)) 0

/-- Value of a NUMBER token (`float(value)` in the source): unsigned digits
with an optional fractional part. -/
def numTokVal (s : String) : ℚ :=
  let intPart := s.toList.takeWhile Char.isDigit
  let rest := s.toList.dropWhile Char.isDigit
  match rest with
  | _ :: frac => digitsVal intPart + digitsVal frac / (10 : ℚ) ^ frac.length
  | [] => digitsVal intPart

/-- True for the two quote characters. -/
def isQuote (c : Char) : Bool := c = sq || c = '"'

/-- Python `value.strip("\x22'")`: removes quote characters from both ends
of the matched STRING token text. -/
def stripQuotes (s : String) : String :=
  String.mk ((((s.toList.dropWhile isQuote).reverse.dropWhile isQuote).reverse))

mutual

/-- `Parser._parse_or`: left-associated OR chain. -/
def parseOrF : Nat → List Token → Except PyErr (Ast × List Token)
  | 0, _ => .error (.rulesError "recursion limit")
  | fuel + 1, ts => do
    let (l, ts1) ← parseAndF fuel ts
    parseOrRest fuel l ts1

/-- Loop of `_parse_or` consuming further `OR` operands. -/
def parseOrRest : Nat → Ast → List Token → Except PyErr (Ast × List Token)
  | 0, _, _ => .error (.rulesError "recursion limit")
  | fuel + 1, l, ts =>
    match ts with
    | (.OR, _) :: ts1 => do
      let (r, ts2) ← parseAndF fuel ts1
      parseOrRest fuel (.orN l r) ts2
    | _ => .ok (l, ts)

/-- `Parser._parse_and`: left-associated AND chain. -/
def parseAndF : Nat → List Token → Except PyErr (Ast × List Token)
  | 0, _ => .error (.rulesError "recursion limit")
  | fuel + 1, ts => do
    let (l, ts1) ← parseCmpF fuel ts
    parseAndRest fuel l ts1

/-- Loop of `_parse_and` consuming further `AND` operands. -/
def parseAndRest : Nat → Ast → List Token → Except PyErr (Ast × List Token)
  | 0, _, _ => .error (.rulesError "recursion limit")
  | fuel + 1, l, ts =>
    match ts with
    | (.AND, _) :: ts1 => do
      let (r, ts2) ← parseCmpF fuel ts1
      parseAndRest fuel (.andN l r) ts2
    | _ => .ok (l, ts)

/-- `Parser._parse_comparison`: a term optionally followed by one
comparison operator and a second term. -/
def parseCmpF : Nat → List Token → Except PyErr (Ast × List Token)
  | 0, _ => .error (.rulesError "recursion limit")
  | fuel + 1, ts => do
    let (l, ts1) ← parseTermF fuel ts
    match ts1 with
    | (.OP, op) :: ts2 => do
      let (r, ts3) ← parseTermF fuel ts2
      .ok (.cmpN op l r, ts3)
    | _ => .ok (l, ts1)

/-- `Parser._parse_term`: parenthesized expression, identifier or call,
number literal or string literal. -/
def parseTermF : Nat → List Token → Except PyErr (Ast × List Token)
  | 0, _ => .error (.rulesError "recursion limit")
  | fuel + 1, ts =>
    match ts with
    | [] => .error (.rulesError "Unexpected end of expression")
    | (.LPAREN, _) :: ts1 => do
      let (e, ts2) ← parseOrF fuel ts1
      match ts2 with
      | (.RPAREN, _) :: ts3 => .ok (e, ts3)
      | _ => .error (.rulesError "Expected RPAREN")
    | (.IDENT, v) :: (.LPAREN, _) :: ts1 =>
      (match ts1 with
      | (.RPAREN, _) :: ts2 => .ok (.callN v [], ts2)
      | _ => do
        let (a, ts2) ← parseOrF fuel ts1
        parseArgsRest fuel v [a] ts2)
    | (.IDENT, v) :: ts1 => .ok (.identN v, ts1)
    | (.NUMBER, v) :: ts1 => .ok (.numberN (numTokVal v), ts1)
    | (.STRING, v) :: ts1 => .ok (.stringN (stripQuotes v), ts1)
    | (k, _) :: _ => .error (.rulesError ("Unexpected token " ++ kindName k))

/-- Argument loop of the call branch of `_parse_term`: consumes
comma-separated further arguments and the closing parenthesis. -/
def parseArgsRest : Nat → String → List Ast → List Token → Except PyErr (Ast × List Token)
  | 0, _, _, _ => .error (.rulesError "recursion limit")
  | fuel + 1, f, acc, ts =>
    match ts with
    | (.COMMA, _) :: ts1 => do
      let (a, ts2) ← parseOrF fuel ts1
      parseArgsRest fuel f (acc ++ [a]) ts2
    | (.RPAREN, _) :: ts1 => .ok (.callN f acc, ts1)
    | _ => .error (.rulesError "Expected RPAREN")

end

/-- Embeds `parse_expression`: tokenize, parse a full OR-expression and
reject trailing input. The fuel is ample for any token list. -/
def parse_expression (expr : String) : Except PyErr Ast := do
  let toks ← tokenize expr
  let (ast, rest) ← parseOrF (4 * toks.length + 8) toks
  match rest with
  | [] => .ok ast
  | _ => .error (.rulesError "Unexpected token at end of expression")

/-- A scalar taken from the rules YAML file.  `load_rules` performs no
type validation on `min`/`max`, so a bound may be a number or a string;
a string bound makes the numeric comparison in `compute_validity` raise
`TypeError`. -/
inductive YamlScalar where
  | num (q : ℚ) : YamlScalar
  | str (s : String) : YamlScalar
deriving DecidableEq, Repr

/-- Numeric view of an optional YAML scalar. -/
def yamlNum : Option YamlScalar → Option ℚ
  | some (.num q) => some q
  | _ => none

/-- Embeds `ColumnRule` (frozen dataclass). Allowed values come from YAML
as numbers or strings, modelled as cells; `min`/`max` are unvalidated
YAML scalars. -/
structure ColumnRule where
  type : Option String := none
  required : Bool := false
  min : Option YamlScalar := none
  max : Option YamlScalar := none
  regex : Option String := none
  allowed : Option (List Cell) := none
  not_future : Bool := false
deriving DecidableEq, Repr

/-- Embeds `RowRule`. -/
structure RowRule where
  name : String
  expr : String
deriving DecidableEq, Repr

/-- Embeds `Rules`: a ruleset that passed `load_rules`.  The column map is
kept in insertion order, as Python dicts are. -/
structure Rules where
  columns : List (String × ColumnRule) := []
  unique_keys : List (List String) := []
  row_rules : List RowRule := []
deriving DecidableEq, Repr

/-- The function allow-list `_ALLOWED_FUNCS`. -/
def allowedFuncs : List String := ["is_null", "not_null"]

/-- Evaluator value: a scalar (number, string or Python bool), a raw
column (`objSeries` records whether its pandas dtype is `object`, i.e. a
null in it is `None` rather than NaN), or a boolean series produced by a
comparison, a call or a boolean operator. -/
inductive Value where
  | vnum (q : ℚ) : Value
  | vstr (s : String) : Value
  | vbool (b : Bool) : Value
  | vseries (cells : List Cell) (objSeries : Bool) : Value
  | vbools (bs : List Bool) : Value
deriving DecidableEq, Repr

/-- A column of cells has a numeric pandas dtype when every cell is a
number or a null and at least one is a number (pandas stores such columns
as int64/float64 and their nulls as NaN; an all-null or mixed column has
dtype `object` and its nulls are `None`). -/
def numericDtypeCol (cells : List Cell) : Bool :=
  cells.all (fun c => c.isNullC || c.isNumC) && cells.any Cell.isNumC

/-- Atom seen by an elementwise pandas comparison: a null that is NaN
(numeric column), a null that is `None` (object column), a number or a
string. -/
inductive Atom where
  | anull (isNan : Bool) : Atom
  | anum (q : ℚ) : Atom
  | astr (s : String) : Atom
deriving DecidableEq, Repr

/-- Atom of one cell of a series whose dtype is known. -/
def cellAtom (objSeries : Bool) : Cell → Atom
  | .null => .anull (!objSeries)
  | .num q => .anum q
  | .str s => .astr s

/-- Comparison of two atoms with Python/pandas semantics: equality with a
null or across types is `False` (so `!=` is `True`); ordering two numbers
or two strings compares them; ordering where a NaN is involved with
numbers is `False`; ordering a `None`, or a string against a number,
raises `TypeError`. -/
def cmpAtom (op : String) (a b : Atom) : Except PyErr Bool :=
  if op = "==" then
    match a, b with
    | .anum x, .anum y => .ok (decide (x = y))
    | .astr x, .astr y => .ok (decide (x = y))
    | _, _ => .ok false
  else if op = "!=" then
    match a, b with
    | .anum x, .anum y => .ok (decide (x ≠ y))
    | .astr x, .astr y => .ok (decide (x ≠ y))
    | _, _ => .ok true
  else if op = "<" || op = "<=" || op = ">" || op = ">=" then
    match a, b with
    | .anum x, .anum y =>
      .ok (if op = "<" then decide (x < y) else if op = "<=" then decide (x ≤ y)
           else if op = ">" then decide (y < x) else decide (y ≤ x))
    | .astr x, .astr y =>
      .ok (if op = "<" then decide (x < y) else if op = "<=" then decide (x ≤ y)
           else if op = ">" then decide (y < x) else decide (y ≤ x))
    | .anull true, .anum _ => .ok false
    | .anum _, .anull true => .ok false
    | .anull true, .anull true => .ok false
    | _, _ => .error (.typeError "unorderable operand types in comparison")
  else .error (.rulesError ("Unknown operator: " ++ op))

/-- Scalar operand of a comparison, as an atom (a Python bool compares as
its numeric value). -/
def scalarAtom : Value → Option Atom
  | .vnum q => some (.anum q)
  | .vstr s => some (.astr s)
  | .vbool b => some (.anum (if b then 1 else 0))
  | _ => none

/-- Series operand of a comparison, as a list of atoms (a boolean series
compares numerically, as numpy bools do). -/
def seriesAtoms : Value → Option (List Atom)
  | .vseries cells obj => some (cells.map (cellAtom obj))
  | .vbools bs => some (bs.map (fun b => .anum (if b then 1 else 0)))
  | _ => none

/-- Elementwise pandas comparison of two evaluator values
(`left < right` and friends in `eval_ast`).  Series operands compare
elementwise into a boolean series; two scalars compare into a scalar
Python bool. -/
def pandasCmp (op : String) (l r : Value) : Except PyErr Value :=
  match seriesAtoms l, seriesAtoms r with
  | some las, some ras =>
    match (las.zip ras).mapM (fun p => cmpAtom op p.1 p.2) with
    | .error e => .error e
    | .ok bs => .ok (.vbools bs)
  | some las, none =>
    match scalarAtom r with
    | some rb =>
      match las.mapM (fun a => cmpAtom op a rb) with
      | .error e => .error e
      | .ok bs => .ok (.vbools bs)
    | none => .error (.typeError "invalid comparison operand")
  | none, some ras =>
    match scalarAtom l with
    | some lb =>
      match ras.mapM (fun a => cmpAtom op lb a) with
      | .error e => .error e
      | .ok bs => .ok (.vbools bs)
    | none => .error (.typeError "invalid comparison operand")
  | none, none =>
    match scalarAtom l, scalarAtom r with
    | some la, some ra =>
      match cmpAtom op la ra with
      | .error e => .error e
      | .ok b => .ok (.vbool b)
    | _, _ => .error (.typeError "invalid comparison operand")

/-- Logical connective selected by an `and`/`or` node on booleans. -/
def boolF (isAnd : Bool) (a b : Bool) : Bool := if isAnd then a && b else a || b

/-- Python bool as the integer 0 or 1 (numpy promotes bools to ints when
one bitwise operand is an integer series). -/
def boolInt (b : Bool) : ℤ := if b then 1 else 0

/-- Python's arbitrary-precision bitwise `&` / `|` (two's complement on
negative operands, as `Int.land`/`Int.lor` are). -/
def pyBit (isAnd : Bool) (x y : ℤ) : ℤ := if isAnd then x.land y else x.lor y

/-- Integer contents of an int64-dtype series (`none` when the column is
not int64: any null, text or fractional cell). -/
def intCells (cells : List Cell) : Option (List ℤ) :=
  if cells.all Cell.isIntCell then some (cells.map cellInt) else none

/-- Integer list back into series cells. -/
def zToCells (zs : List ℤ) : List Cell := zs.map (fun (z : ℤ) => Cell.num (z : ℚ))

/-- Pandas `&` / `|` on evaluator values.  Boolean series and Python
bools combine logically; an int64 series combines bitwise (with a bool
operand promoted to 0/1), yielding a raw integer series; every other
operand — a float or string scalar (number literals are Python floats),
a float64 column (any null or fractional value) or an object column —
makes pandas raise `TypeError`. -/
def pandasBoolOp (isAnd : Bool) (l r : Value) : Except PyErr Value :=
  match l, r with
  | .vbools a, .vbools b => .ok (.vbools (List.zipWith (boolF isAnd) a b))
  | .vbools a, .vbool b => .ok (.vbools (a.map (fun x => boolF isAnd x b)))
  | .vbool a, .vbools b => .ok (.vbools (b.map (fun x => boolF isAnd a x)))
  | .vbool a, .vbool b => .ok (.vbool (boolF isAnd a b))
  | .vbools a, .vseries cells _ =>
    match intCells cells with
    | some zs =>
      .ok (.vseries (zToCells (List.zipWith (fun x z => pyBit isAnd (boolInt x) z) a zs)) false)
    | none => .error (.typeError "unsupported operand type for bitwise operator")
  | .vseries cells _, .vbools b =>
    match intCells cells with
    | some zs =>
      .ok (.vseries (zToCells (List.zipWith (fun z x => pyBit isAnd z (boolInt x)) zs b)) false)
    | none => .error (.typeError "unsupported operand type for bitwise operator")
  | .vseries c1 _, .vseries c2 _ =>
    match intCells c1, intCells c2 with
    | some z1, some z2 =>
      .ok (.vseries (zToCells (List.zipWith (pyBit isAnd) z1 z2)) false)
    | _, _ => .error (.typeError "unsupported operand type for bitwise operator")
  | .vbool a, .vseries cells _ =>
    match intCells cells with
    | some zs =>
      .ok (.vseries (zToCells (zs.map (fun z => pyBit isAnd (boolInt a) z))) false)
    | none => .error (.typeError "unsupported operand type for bitwise operator")
  | .vseries cells _, .vbool b =>
    match intCells cells with
    | some zs =>
      .ok (.vseries (zToCells (zs.map (fun z => pyBit isAnd z (boolInt b)))) false)
    | none => .error (.typeError "unsupported operand type for bitwise operator")
  | _, _ => .error (.typeError "unsupported operand type for bitwise operator")

/-- The `pd.isna` applied by the `is_null` allow-listed function: a null
cell is missing, scalars and booleans are not. -/
def pandasIsNa : Value → Value
  | .vseries cells _ => .vbools (cells.map Cell.isNullC)
  | .vbools bs => .vbools (bs.map (fun _ => false))
  | _ => .vbool false

/-- Complement of `pandasIsNa` (`~pd.isna(value)` for `not_null`). -/
def pandasNotNa : Value → Value
  | .vseries cells _ => .vbools (cells.map (fun c => !c.isNullC))
  | .vbools bs => .vbools (bs.map (fun _ => true))
  | _ => .vbool true

/-- Embeds `eval_ast`: walks the AST against the dataset.  An unknown
column or a disallowed/misused function raises `RulesError`; comparisons
and boolean operators follow pandas semantics, raising `TypeError` on
incompatible operand types. -/
def eval_ast (df : DF) : Ast → Except PyErr Value
  | .identN name =>
    match df.colCells name with
    | none => .error (.rulesError ("Unknown column in expression: " ++ name))
    | some cells => .ok (.vseries cells (!numericDtypeCol cells))
  | .numberN q => .ok (.vnum q)
  | .stringN s => .ok (.vstr s)
  | .callN f args =>
    if !(allowedFuncs.contains f) then
      .error (.rulesError ("Function not allowed: " ++ f))
    else
      match args with
      | [a] =>
        match eval_ast df a with
        | .error e => .error e
        | .ok v => if f = "is_null" then .ok (pandasIsNa v) else .ok (pandasNotNa v)
      | _ => .error (.rulesError "Functions require a single argument")
  | .cmpN op l r =>
    match eval_ast df l with
    | .error e => .error e
    | .ok lv =>
      match eval_ast df r with
      | .error e => .error e
      | .ok rv => pandasCmp op lv rv
  | .andN l r =>
    match eval_ast df l with
    | .error e => .error e
    | .ok lv =>
      match eval_ast df r with
      | .error e => .error e
      | .ok rv => pandasBoolOp true lv rv
  | .orN l r =>
    match eval_ast df l with
    | .error e => .error e
    | .ok lv =>
      match eval_ast df r with
      | .error e => .error e
      | .ok rv => pandasBoolOp false lv rv

/-- Result of `evaluate_row_rule`: a boolean series, or the raw column
series returned unchanged when the expression was a bare column
reference. -/
inductive RowSeries where
  | bools (bs : List Bool) : RowSeries
  | raw (cells : List Cell) (objSeries : Bool) : RowSeries
deriving DecidableEq, Repr

/-- Embeds `evaluate_row_rule`: parse then evaluate; a pandas Series is
returned as is, a scalar result is broadcast by its Python truthiness to
every row. -/
def evaluate_row_rule (expr : String) (df : DF) : Except PyErr RowSeries :=
  match parse_expression expr with
  | .error e => .error e
  | .ok ast =>
  match eval_ast df ast with
  | .error e => .error e
  | .ok v =>
  match v with
  | .vseries cells obj => .ok (.raw cells obj)
  | .vbools bs => .ok (.bools bs)
  | .vbool b => .ok (.bools (List.replicate df.nRows b))
  | .vnum q => .ok (.bools (List.replicate df.nRows (decide (q ≠ 0))))
  | .vstr s => .ok (.bools (List.replicate df.nRows (decide (s ≠ ""))))

/-- A row-rule evaluation outcome the consistency loop can absorb: a
boolean series, or a failure that is a `RulesError` (syntax error,
unknown column, disallowed function).  A raw series (a bare column
reference) and any other exception are excluded. -/
def recoverableEval : Except PyErr RowSeries → Bool
  | .ok (.bools _) => true
  | .error (.rulesError _) => true
  | _ => false

/-- The row rules of an optional ruleset. -/
def rowRulesOf : Option Rules → List RowRule
  | some rs => rs.row_rules
  | none => []

/-- Embeds the issue dicts appended by every check: kind tag, implicated
columns, affected count and up to three stringified example values.  The
count is an integer because `int(invalid_mask.sum())` in the consistency
check can be negative when the mask came from bitwise-inverting an int64
series. -/
structure Issue where
  type : String
  columns : List String
  count : ℤ
  examples : List String
deriving DecidableEq, Repr

/-- Embeds `rows_to_examples` from `src/dqa/io.py`: the first three
values, stringified. -/
def rows_to_examples (vals : List String) : List String := vals.take 3

/-- Python `str()` of a cell (`nan` is how a missing float prints). -/
def cellStr : Cell → String
  | .null => "nan"
  | .num q => toString q
  | .str s => s

/-- Number of `true` entries of a boolean mask (`mask.sum()`). -/
def countTrue (mask : List Bool) : Nat := mask.countP id

/-- Positions at which a boolean mask is set (`df.index[mask]`). -/
def maskIndices (mask : List Bool) : List Nat :=
  (List.range mask.length).filter (fun i => mask.getD i false)

/-- Count plus percentage aggregate used by the metric dicts. -/
structure CountPct where
  count : Nat
  pct : ℚ
deriving DecidableEq, Repr

/-- Guarded percentage: `count / total if total else 0.0`. -/
def pctOf (count total : Nat) : ℚ :=
  if total = 0 then 0 else (count : ℚ) / (total : ℚ)

/-- Guarded percentage of a (possibly negative) integer count. -/
def pctZ (count : ℤ) (total : Nat) : ℚ :=
  if total = 0 then 0 else (count : ℚ) / (total : ℚ)

/-- Integer count plus percentage aggregate (the consistency check's
global invalid aggregate, whose count can be negative). -/
structure IntCountPct where
  count : ℤ
  pct : ℚ
deriving DecidableEq, Repr

/-- Positional index into the default RangeIndex with Python's negative
indexing (`df.index[m]` for `-n ≤ m < n`). -/
def posIdx (n : Nat) (m : ℤ) : Nat := (if m < 0 then (n : ℤ) + m else m).toNat

/-- Completeness metrics: global missing aggregate and per-column
breakdown. -/
structure CompletenessMetrics where
  global : CountPct
  columns : List (String × CountPct)
deriving DecidableEq, Repr

/-- Number of nulls of a column (`series.isna().sum()`). -/
def countNull (cells : List Cell) : Nat := cells.countP Cell.isNullC

/-- Embeds `compute_completeness`: per-column and global null-cell count
and percentage; one `missing_values` issue per column with at least one
null. -/
def compute_completeness (df : DF) : CompletenessMetrics × List Issue :=
  let n := df.nRows
  let totalCells := n * df.names.length
  let missingTotal := ((List.range df.names.length).map (fun i => countNull (df.colAt i))).sum
  let columnsMetrics := (List.range df.names.length).map (fun i =>
    (df.names.getD i "", CountPct.mk (countNull (df.colAt i)) (pctOf (countNull (df.colAt i)) n)))
  let issues := ((List.range df.names.length).filter (fun i => countNull (df.colAt i) ≠ 0)).map
    (fun i => Issue.mk "missing_values" [df.names.getD i ""] ((countNull (df.colAt i) : ℤ))
      (rows_to_examples (((df.colAt i).filter Cell.isNullC).map cellStr)))
  (⟨⟨missingTotal, pctOf missingTotal totalCells⟩, columnsMetrics⟩, issues)

/-- Whole-row (or key-projected) duplicate flags of `df.duplicated()` with
the default `keep="first"`: a row is flagged exactly when an identical row
occurred earlier; the auxiliary argument carries the rows already seen. -/
def dupFlagsAux {α : Type} [DecidableEq α] (seen : List α) : List α → List Bool
  | [] => []
  | r :: rest => decide (r ∈ seen) :: dupFlagsAux (r :: seen) rest

/-- Duplicate flags of a row list (`df.duplicated()`). -/
def dupFlags {α : Type} [DecidableEq α] (rows : List α) : List Bool :=
  dupFlagsAux [] rows

/-- Per-key-group duplicate metrics (`duplicates_on_key` entries). -/
structure KeyMetric where
  count : Nat
  pct : ℚ
  columns : List String
deriving DecidableEq, Repr

/-- Uniqueness metrics: whole-row duplicates plus per-key-group
duplicates. -/
structure UniquenessMetrics where
  duplicate_rows_count : Nat
  duplicate_rows_pct : ℚ
  duplicates_on_key : List (String × KeyMetric)
deriving DecidableEq, Repr

/-- Projection of the rows onto a key-column group
(`df.duplicated(subset=key_cols)` compares rows on those columns). -/
def projectRows (df : DF) (keyCols : List String) : List (List Cell) :=
  let idxs := keyCols.filterMap (fun c => df.names.indexOf? c)
  df.rows.map (fun r => idxs.map (fun i => r.getD i Cell.null))

/-- Pandas `DataFrame.empty`: an axis of length zero.
`DataFrame.duplicated` returns an empty boolean series outright on an
empty frame, before its subset handling can raise. -/
def pdEmpty (df : DF) : Bool := decide (df.nRows = 0) || df.names.isEmpty

/-- Embeds the inner `handle_key` of `compute_uniqueness`: a key group
with absent columns yields a `missing_columns` issue; an empty key group
(no columns, hence no missing columns either) on a non-empty frame
reaches `df.duplicated(subset=[])`, whose tuple unpacking over zero
per-column arrays raises `ValueError` (on an empty frame `duplicated`
returns early and the group counts zero duplicates); otherwise the
group gets its duplicate count, percentage and (when positive) a
`duplicate_key` issue. -/
def handle_key (df : DF) (keyCols : List String) (label : String) :
    Except PyErr (List (String × KeyMetric) × List Issue) :=
  let missing := keyCols.filter (fun c => !(df.names.contains c))
  if missing ≠ [] then
    .ok ([], [Issue.mk "missing_columns" missing (missing.length : ℤ) []])
  else if keyCols.isEmpty && !pdEmpty df then
    .error (.valueError "not enough values to unpack (expected 2, got 0)")
  else
    let flags := dupFlags (projectRows df keyCols)
    let dups := countTrue flags
    let pct := pctOf dups df.nRows
    let entry := (label, KeyMetric.mk dups pct keyCols)
    if dups ≠ 0 then
      .ok ([entry], [Issue.mk "duplicate_key" keyCols (dups : ℤ)
        (rows_to_examples ((maskIndices flags).map toString))])
    else .ok ([entry], [])

/-- The id-column pass of `compute_uniqueness` (`if id_cols:` — an empty
or absent id-column list is skipped by Python truthiness). -/
def idPartOf (df : DF) (id_cols : Option (List String)) :
    Except PyErr (List (String × KeyMetric) × List Issue) :=
  match id_cols with
  | some ics => if ics.isEmpty then .ok ([], []) else handle_key df ics "id_cols"
  | none => .ok ([], [])

/-- The unique-key loop of `compute_uniqueness` (groups labelled from
`unique_key_1`); the first raising group aborts the loop. -/
def ukLoop (df : DF) : Nat → List (List String) →
    Except PyErr (List (String × KeyMetric) × List Issue)
  | _, [] => .ok ([], [])
  | i, g :: rest =>
    match handle_key df g ("unique_key_" ++ toString i) with
    | .error e => .error e
    | .ok r1 =>
      match ukLoop df (i + 1) rest with
      | .error e => .error e
      | .ok r2 => .ok (r1.1 ++ r2.1, r1.2 ++ r2.2)

/-- The unique-key pass of `compute_uniqueness` (`if unique_keys:` — an
absent list is skipped; looping over an empty list is a no-op). -/
def ukPartOf (df : DF) (unique_keys : Option (List (List String))) :
    Except PyErr (List (String × KeyMetric) × List Issue) :=
  match unique_keys with
  | some uks => ukLoop df 1 uks
  | none => .ok ([], [])

/-- Embeds `compute_uniqueness`: whole-row duplicate count and percentage,
then one `handle_key` pass for the id-column group (when non-empty) and
for each user unique-key group; a `ValueError` from an empty unique-key
group propagates. -/
def compute_uniqueness (df : DF) (id_cols : Option (List String))
    (unique_keys : Option (List (List String))) :
    Except PyErr (UniquenessMetrics × List Issue) :=
  match idPartOf df id_cols with
  | .error e => .error e
  | .ok idPart =>
    match ukPartOf df unique_keys with
    | .error e => .error e
    | .ok ukPart =>
      .ok (⟨countTrue (dupFlags df.rows), pctOf (countTrue (dupFlags df.rows)) df.nRows,
            idPart.1 ++ ukPart.1⟩,
        (if countTrue (dupFlags df.rows) ≠ 0 then
          [Issue.mk "duplicate_rows" [] ((countTrue (dupFlags df.rows) : ℤ))
            (rows_to_examples ((maskIndices (dupFlags df.rows)).map toString))]
        else []) ++ idPart.2 ++ ukPart.2)

/-- Per-row-rule consistency metrics (`rule_metrics` entries); the count
is an integer because bitwise inversion of an int64 result series can
sum negative. -/
structure RuleMetric where
  invalid_count : ℤ
  invalid_pct : ℚ
  expr : String
deriving DecidableEq, Repr

/-- Consistency metrics: global invalid aggregate (the per-rule invalid
counts summed) and the per-rule breakdown. -/
structure ConsistencyMetrics where
  global : IntCountPct
  rules : List (String × RuleMetric)
deriving DecidableEq, Repr

/-- One rule of the `compute_consistency` loop, applying
`invalid_mask = ~result.fillna(False)` to the evaluated series:
a `RulesError` from parsing or evaluation becomes a zero-count
`row_rule_error` issue and a zeroed metric; a boolean result series is
inverted logically (nulls counted as failing); a raw int64 series
(every cell an integer, so `fillna` is a no-op) is inverted bitwise to
`-1 - x`, giving an integer mask whose sum — possibly negative — is the
invalid count, and whose values index `df.index` positionally when an
issue is emitted (raising `IndexError` when one falls outside
`[-rows, rows)`); any other raw series (a null, fractional or text
cell, i.e. a float64 or object column) makes the inversion raise
`TypeError`.  Nothing but the `RulesError` is caught. -/
def consRule (df : DF) (rule : RowRule) :
    Except PyErr (Option (String × RuleMetric) × ℤ × List Issue) :=
  match evaluate_row_rule rule.expr df with
  | .error (.rulesError msg) =>
    .ok (some (rule.name, RuleMetric.mk 0 0 rule.expr), 0,
      [Issue.mk "row_rule_error" [] 0 [msg]])
  | .error e => .error e
  | .ok (.raw cells _) =>
    match intCells cells with
    | none => .error (.typeError "bad operand type for unary invert")
    | some zs =>
      if (zs.map (fun z => -1 - z)).sum ≠ 0 then
        if (zs.map (fun z => -1 - z)).all
            (fun m => decide (-(df.nRows : ℤ) ≤ m) && decide (m < (df.nRows : ℤ))) then
          .ok (some (rule.name,
              RuleMetric.mk ((zs.map (fun z => -1 - z)).sum)
                (pctZ ((zs.map (fun z => -1 - z)).sum) df.nRows) rule.expr),
            (zs.map (fun z => -1 - z)).sum,
            [Issue.mk "row_rule_violation" [] ((zs.map (fun z => -1 - z)).sum)
              (rows_to_examples ((zs.map (fun z => -1 - z)).map
                (fun m => toString (posIdx df.nRows m))))])
        else .error (.indexError "positional indexers are out-of-bounds")
      else
        .ok (some (rule.name,
            RuleMetric.mk ((zs.map (fun z => -1 - z)).sum)
              (pctZ ((zs.map (fun z => -1 - z)).sum) df.nRows) rule.expr),
          (zs.map (fun z => -1 - z)).sum, [])
  | .ok (.bools bs) =>
    let invalidMask := bs.map (fun b => !b)
    let invalidCount := countTrue invalidMask
    let issues :=
      if invalidCount ≠ 0 then
        [Issue.mk "row_rule_violation" [] ((invalidCount : ℤ))
          (rows_to_examples ((maskIndices invalidMask).map toString))]
      else []
    .ok (some (rule.name,
        RuleMetric.mk ((invalidCount : ℤ)) (pctOf invalidCount df.nRows) rule.expr),
      ((invalidCount : ℤ)), issues)

/-- The rule loop of `compute_consistency`, accumulating the per-rule
metrics, the summed invalid total and the issues in rule order. -/
def consLoop (df : DF) : List RowRule →
    Except PyErr (List (String × RuleMetric) × ℤ × List Issue)
  | [] => .ok ([], 0, [])
  | rule :: rest =>
    match consRule df rule with
    | .error e => .error e
    | .ok (entry, cnt, iss) =>
      match consLoop df rest with
      | .error e => .error e
      | .ok (entries, total, issRest) =>
        .ok (entry.toList ++ entries, cnt + total, iss ++ issRest)

/-- Embeds `compute_consistency`: applies each row rule through the
expression engine; the summed invalid total is divided by the row count
for the global percentage. -/
def compute_consistency (df : DF) (rules : Option Rules) :
    Except PyErr (ConsistencyMetrics × List Issue) :=
  match rules with
  | none => .ok (⟨⟨0, 0⟩, []⟩, [])
  | some rs =>
    if rs.row_rules.isEmpty then .ok (⟨⟨0, 0⟩, []⟩, [])
    else
      match consLoop df rs.row_rules with
      | .error e => .error e
      | .ok (entries, total, issues) =>
        .ok (⟨⟨total, pctZ total df.nRows⟩, entries⟩, issues)

/-- Numeric values of a column, nulls dropped (`series.dropna()` after the
identity numeric coercion that `compute_outliers` applies to an already
numeric column). -/
def numericVals (cells : List Cell) : List ℚ :=
  cells.filterMap (fun c => match c with | .num q => some q | _ => none)

/-- Ascending sort of the numeric values (pandas sorts before taking a
quantile). -/
def sortedQ (vals : List ℚ) : List ℚ :=
  vals.mergeSort (fun a b => decide (a ≤ b))

/-- Linear-interpolation quantile of a sorted non-empty list, as
`Series.quantile` computes it: position `h = (m-1)·q`, value
`v⟦⌊h⌋⟧ + (h-⌊h⌋)·(v⟦⌊h⌋+1⟧ - v⟦⌊h⌋⟧)`. -/
def quantileQ (l : List ℚ) (q : ℚ) : ℚ :=
  let h : ℚ := ((l.length : ℚ) - 1) * q
  let i : ℕ := ⌊h⌋.toNat
  let lo := l.getD i 0
  let hi := l.getD (i + 1) lo
  lo + (h - (i : ℚ)) * (hi - lo)

/-- Tukey fence data of one numeric column: quartiles over the sorted
non-null values and the fence bounds `Q1 − 1.5·IQR`, `Q3 + 1.5·IQR`. -/
structure Fence where
  q1 : ℚ
  q3 : ℚ
  lower : ℚ
  upper : ℚ
deriving DecidableEq, Repr

/-- Fence of a list of numeric values, as the body of `compute_outliers`
derives it. -/
def fenceOf (vals : List ℚ) : Fence :=
  let s := sortedQ vals
  let q1 := quantileQ s (1 / 4)
  let q3 := quantileQ s (3 / 4)
  let iqr := q3 - q1
  ⟨q1, q3, q1 - 3 / 2 * iqr, q3 + 3 / 2 * iqr⟩

/-- Outlier flag of one cell against a fence:
`(series < lower) | (series > upper)` — strict on both sides, false on a
null (NaN compares false). -/
def isOutlierCell (f : Fence) : Cell → Bool
  | .num q => decide (q < f.lower) || decide (f.upper < q)
  | _ => false

/-- Outlier metrics: global aggregate over all counted numeric cells and
the per-column breakdown. -/
structure OutlierMetrics where
  global : CountPct
  columns : List (String × CountPct)
deriving DecidableEq, Repr

/-- Data the `compute_outliers` loop derives for one counted column. -/
structure OutColData where
  name : String
  cells : List Cell
  numCount : Nat
  outCount : Nat
  fence : Fence
deriving DecidableEq, Repr

/-- The per-column pass of `compute_outliers`: numeric-dtype, non-boolean
columns with at least one parsable value, with their fences and outlier
counts; other columns are skipped. -/
def outColData (df : DF) : List OutColData :=
  (List.range df.names.length).filterMap (fun i =>
    if !((df.colAt i).all (fun c => c.isNullC || c.isNumC)) then none
    else
      if (numericVals (df.colAt i)).length = 0 then none
      else
        some (OutColData.mk (df.names.getD i "") (df.colAt i)
          (numericVals (df.colAt i)).length
          ((df.colAt i).countP (isOutlierCell (fenceOf (numericVals (df.colAt i)))))
          (fenceOf (numericVals (df.colAt i)))))

/-- Embeds `compute_outliers`: every numeric-dtype, non-boolean column
with at least one parsable value gets an IQR fence; values strictly
outside it are outliers; skipped columns contribute to neither the
numerator nor the denominator of the global rate. -/
def compute_outliers (df : DF) : OutlierMetrics × List Issue :=
  let perCol := outColData df
  let totalNumeric := (perCol.map OutColData.numCount).sum
  let totalOutliers := (perCol.map OutColData.outCount).sum
  let columnsMetrics := perCol.map (fun d =>
    (d.name, CountPct.mk d.outCount (pctOf d.outCount d.numCount)))
  let issues := (perCol.filter (fun d => d.outCount ≠ 0)).map (fun d =>
    Issue.mk "outliers" [d.name] ((d.outCount : ℤ))
      (rows_to_examples (((numericVals d.cells).filter
        (fun q => decide (q < d.fence.lower) || decide (d.fence.upper < q))).map
          (fun q => toString q))))
  (⟨⟨totalOutliers, pctOf totalOutliers totalNumeric⟩, columnsMetrics⟩, issues)

/-- External library primitives the validity check and type inference rely
on and the repository treats as collaborators: numeric coercion of text
(`pd.to_numeric`), date parsing (`pd.to_datetime`, dates as timestamps),
the current timestamp (`pd.Timestamp.now()`), and regular-expression
compilation (`re.compile`, called by `Series.str.match`, which returns an
anchored matcher or fails with `re.error` on an invalid pattern — the
pattern comes unvalidated from the rules file).  Every theorem about them
holds for all instantiations. -/
structure Prims where
  strToNum : String → Option ℚ
  parseDate : Cell → Option ℚ
  now : ℚ
  regexCompile : String → Option (String → Bool)

/-- The compiled matcher of a pattern (only applied after compilation
succeeded; the fallback never fires on the error-free path). -/
def regexFun (p : Prims) (pat : String) : String → Bool :=
  (p.regexCompile pat).getD (fun _ => false)

/-- Fail-soft numeric coercion of a cell (`pd.to_numeric(series,
errors="coerce")` elementwise): numbers pass through, nulls stay null,
text goes through the library parser. -/
def toNumC (p : Prims) : Cell → Option ℚ
  | .null => none
  | .num q => some q
  | .str s => p.strToNum s

/-- The `_BOOL_STRINGS` token set. -/
def boolStrings : List String := ["true", "false", "yes", "no", "0", "1"]

/-- Embeds `_invalid_by_type`: the per-cell type-mismatch mask for a
declared type.  A null cell fails the int/float/date coercions (NaN in,
NaN out) and the bool token test (`str(nan)` is not a bool token). -/
def invalidByType (p : Prims) (cells : List Cell) (ty : String) : List Bool :=
  if ty = "int" then
    cells.map (fun c => match toNumC p c with
      | none => true
      | some q => decide (q.den ≠ 1))
  else if ty = "float" then cells.map (fun c => (toNumC p c).isNone)
  else if ty = "bool" then
    cells.map (fun c => !(boolStrings.contains (strTrim (strLower (cellStr c)))))
  else if ty = "date" then cells.map (fun c => (p.parseDate c).isNone)
  else cells.map (fun _ => false)

/-- Pointwise OR of two violation masks (`invalid_mask |= mask`). -/
def orMask (a b : List Bool) : List Bool := List.zipWith (fun x y => x || y) a b

/-- One merge step of the `compute_validity` loop: when the rule is active
and the mask has a set bit, the mask is merged into the column's invalid
mask and an issue with the mask's own count is appended. -/
def vStep (acc : List Bool × List Issue) (active : Bool) (m : List Bool)
    (ty : String) (cols : List String) (exs : List String) : List Bool × List Issue :=
  if active && countTrue m ≠ 0 then
    (orMask acc.1 m, acc.2 ++ [Issue.mk ty cols ((countTrue m : ℤ)) exs])
  else acc

/-- True when an optional YAML bound is absent or numeric (a string
bound raises `TypeError` in the min/max branches). -/
def numericBound : Option YamlScalar → Bool
  | some (.str _) => false
  | _ => true

/-- The raising paths of one column of `compute_validity`, in source
order and independent of the data: a string `min` or `max` makes the
numeric comparison raise `TypeError` the moment the branch runs, and a
non-empty regex that does not compile makes `Series.str.match` raise
`re.error`.  The `required`/`type`/`allowed`/`not_future` branches
cannot raise. -/
def validityColErr (p : Prims) (rc : Option ColumnRule) : Option PyErr :=
  match rc with
  | none => none
  | some r =>
    if numericBound r.min = false then
      some (.typeError "invalid comparison between numeric series and str")
    else if numericBound r.max = false then
      some (.typeError "invalid comparison between numeric series and str")
    else
      match r.regex with
      | some s =>
        if s ≠ "" && (p.regexCompile s).isNone then
          some (.reError "invalid regular expression")
        else none
      | none => none

/-- Invalid mask and issues of one column of `compute_validity` on the
error-free path, applying required/type/min/max/regex/allowed/not-future
in source order.  Python truthiness gates the branches: a declared type
or regex that is the empty string, and an empty allowed list, are
skipped; `min`/`max` run whenever present (`is not None`). -/
def validityColOk (p : Prims) (name : String) (cells : List Cell) (rc : Option ColumnRule) :
    List Bool × List Issue :=
  let required := match rc with | some r => r.required | none => false
  let missingMask := cells.map Cell.isNullC
  let acc0 : List Bool × List Issue := (cells.map (fun _ => false), [])
  let acc1 := vStep acc0 required missingMask "required_missing" [name]
    (rows_to_examples ((cells.filter Cell.isNullC).map cellStr))
  let ruleTy := rc.bind ColumnRule.type
  let tyMask := invalidByType p cells (ruleTy.getD "")
  let acc2 := vStep acc1 (decide (ruleTy.getD "" ≠ "")) tyMask "type_mismatch" [name]
    (rows_to_examples (((cells.zip tyMask).filter (fun z => z.2)).map (fun z => cellStr z.1)))
  let mn := yamlNum (rc.bind ColumnRule.min)
  let lowMask := cells.map (fun c => match toNumC p c, mn with
    | some q, some m => decide (q < m)
    | _, _ => false)
  let acc3 := vStep acc2 mn.isSome lowMask "below_min" [name]
    (rows_to_examples (((cells.zip lowMask).filter (fun z => z.2)).map (fun z => cellStr z.1)))
  let mx := yamlNum (rc.bind ColumnRule.max)
  let highMask := cells.map (fun c => match toNumC p c, mx with
    | some q, some m => decide (m < q)
    | _, _ => false)
  let acc4 := vStep acc3 mx.isSome highMask "above_max" [name]
    (rows_to_examples (((cells.zip highMask).filter (fun z => z.2)).map (fun z => cellStr z.1)))
  let rxs := (rc.bind ColumnRule.regex).getD ""
  let rxMask := cells.map (fun c =>
    !c.isNullC && !(regexFun p rxs (cellStr c)))
  let acc5 := vStep acc4 (decide (rxs ≠ "")) rxMask "regex_mismatch" [name]
    (rows_to_examples (((cells.zip rxMask).filter (fun z => z.2)).map (fun z => cellStr z.1)))
  let als := (rc.bind ColumnRule.allowed).getD []
  let alMask := cells.map (fun c => !c.isNullC && !(als.contains c))
  let acc6 := vStep acc5 (decide (als ≠ [])) alMask "not_allowed" [name]
    (rows_to_examples (((cells.zip alMask).filter (fun z => z.2)).map (fun z => cellStr z.1)))
  let notFuture := match rc with | some r => r.not_future | none => false
  let futMask := cells.map (fun c => match p.parseDate c with
    | some d => decide (p.now < d)
    | none => false)
  vStep acc6 notFuture futMask "date_in_future" [name]
    (rows_to_examples (((cells.zip futMask).filter (fun z => z.2)).map (fun z => cellStr z.1)))

/-- One column of `compute_validity`: raises the branch's exception when
one of the raising paths is active, and otherwise produces the invalid
mask and issues of the error-free path. -/
def validityColE (p : Prims) (name : String) (cells : List Cell) (rc : Option ColumnRule) :
    Except PyErr (List Bool × List Issue) :=
  match validityColErr p rc with
  | some e => .error e
  | none => .ok (validityColOk p name cells rc)

/-- Per-column validity metrics. -/
structure ColValidity where
  invalid_count : Nat
  invalid_pct : ℚ
  inferred_type : String
deriving DecidableEq, Repr

/-- Validity metrics: global invalid aggregate over all cells and the
per-column breakdown. -/
structure ValidityMetrics where
  global : CountPct
  columns : List (String × ColValidity)
deriving DecidableEq, Repr

/-- Lookup in an insertion-ordered string-keyed association list (Python
`dict.get`). -/
def lookupS {α : Type} (l : List (String × α)) (k : String) : Option α :=
  (l.find? (fun e => e.1 = k)).map Prod.snd

/-- The per-column loop of `compute_validity`: a cell may trigger several
rule kinds; the column's invalid total is the union of the violation
masks while every triggered kind emits its own issue with its own count.
The first column whose rule raises aborts the loop. -/
def validityLoop (p : Prims) (df : DF) (rules : Option Rules) :
    List Nat → Except PyErr (List (String × Nat × List Issue))
  | [] => .ok []
  | i :: rest =>
    match validityColE p (df.names.getD i "") (df.colAt i)
        (rules.bind (fun rs => lookupS rs.columns (df.names.getD i ""))) with
    | .error e => .error e
    | .ok r =>
      match validityLoop p df rules rest with
      | .error e => .error e
      | .ok ds => .ok ((df.names.getD i "", countTrue r.1, r.2) :: ds)

/-- Embeds `compute_validity` (see the doc comment above `validityLoop`
for the per-column loop); the global percentage divides by rows times
columns. -/
def compute_validity (p : Prims) (df : DF) (rules : Option Rules)
    (inferred : List (String × String)) : Except PyErr (ValidityMetrics × List Issue) :=
  match validityLoop p df rules (List.range df.names.length) with
  | .error e => .error e
  | .ok perCol =>
    .ok (⟨⟨(perCol.map (fun d => d.2.1)).sum,
        pctOf ((perCol.map (fun d => d.2.1)).sum) (df.nRows * df.names.length)⟩,
      perCol.map (fun d =>
        (d.1, ColValidity.mk d.2.1 (pctOf d.2.1 df.nRows)
          ((lookupS inferred d.1).getD "string")))⟩,
      perCol.flatMap (fun d => d.2.2))

/-- Embeds `ScoreWeights` (integer weights, defaults 25/25/20/20/10). -/
structure ScoreWeights where
  completeness : ℤ := 25
  validity : ℤ := 25
  uniqueness : ℤ := 20
  consistency : ℤ := 20
  outliers : ℤ := 10
deriving DecidableEq, Repr

/-- Embeds `Scores`: the five sub-scores and the weighted total. -/
structure Scores where
  completeness : ℚ
  validity : ℚ
  uniqueness : ℚ
  consistency : ℚ
  outliers : ℚ
  total : ℚ
deriving DecidableEq, Repr

/-- Embeds `_bounded`: clamp into `[0, 100]`. -/
def bounded (s : ℚ) : ℚ := max 0 (min 100 s)

/-- Embeds `compute_scores`: each rate maps through `100·(1 − rate)`
clamped; the uniqueness rate is the worse of the whole-row and key-group
duplicate rates (an absent key rate counts as 0, as does Python's
`or 0.0`); the total is the weighted mean, clamped. -/
def compute_scores (missing_pct invalid_pct duplicate_rows_pct : ℚ)
    (duplicate_key_pct : Option ℚ) (consistency_invalid_pct outlier_pct : ℚ)
    (weights : Option ScoreWeights := none) : Scores :=
  let w := weights.getD {}
  let completenessScore := bounded (100 * (1 - missing_pct))
  let validityScore := bounded (100 * (1 - invalid_pct))
  let uniquenessRate := max duplicate_rows_pct (duplicate_key_pct.getD 0)
  let uniquenessScore := bounded (100 * (1 - uniquenessRate))
  let consistencyScore := bounded (100 * (1 - consistency_invalid_pct))
  let outliersScore := bounded (100 * (1 - outlier_pct))
  let totalWeight : ℤ := w.completeness + w.validity + w.uniqueness + w.consistency + w.outliers
  let weightedTotal : ℚ :=
    (completenessScore * w.completeness + validityScore * w.validity +
      uniquenessScore * w.uniqueness + consistencyScore * w.consistency +
      outliersScore * w.outliers) / (totalWeight : ℚ)
  ⟨completenessScore, validityScore, uniquenessScore, consistencyScore, outliersScore,
    bounded weightedTotal⟩

/-- Library primitives instantiated trivially (no text parses as a number
or date, every pattern compiles to a matcher that never matches);
theorems quantified over `Prims` are instantiated with this value. -/
def prims0 : Prims := ⟨fun _ => none, fun _ => none, 0, fun _ => some (fun _ => false)⟩

/-- Dataset with one int64 column `age` holding two zeros (an
all-integer, null-free column, as `read_csv` types it). -/
def dfIntAge : DF := ⟨["age"], [[Cell.num 0], [Cell.num 0]]⟩

/-- Ruleset whose single row rule is the bare column reference `age`. -/
def rulesBareAge : Rules := ⟨[], [], [⟨"raw", "age"⟩]⟩

/-- Dataset with one numeric column `age` holding 30 and a null. -/
def dfAgeRow : DF := ⟨["age"], [[Cell.num 30], [Cell.null]]⟩

/-- The age-range row rule of the specification. -/
def ruleAgeRange : RowRule := ⟨"age_range", "age >= 0 and age <= 120"⟩

/-- Ruleset whose single row rule has a syntax error. -/
def rulesBadParse : Rules := ⟨[], [], [⟨"bad", "age >"⟩]⟩

/-- Dataset with a single all-null column. -/
def dfOneNull : DF := ⟨["a"], [[Cell.null]]⟩

/-- Two row rules that both fail on every row of `dfOneNull`. -/
def rulesTwoEq : Rules := ⟨[], [], [⟨"r1", "a == 1"⟩, ⟨"r2", "a == 2"⟩]⟩

/-- The completeness example `{a:[1,null,3], b:[null,null,3]}`. -/
def dfAB : DF :=
  ⟨["a", "b"], [[Cell.num 1, Cell.null], [Cell.null, Cell.null], [Cell.num 3, Cell.num 3]]⟩

/-- The uniqueness example `{id:[1,1,2], value:[10,10,20]}`. -/
def dfIdVal : DF :=
  ⟨["id", "value"],
   [[Cell.num 1, Cell.num 10], [Cell.num 1, Cell.num 10], [Cell.num 2, Cell.num 20]]⟩

/-- The outlier example column `[10,12,11,13,500]`. -/
def amountVals : List ℚ := [10, 12, 11, 13, 500]

/-! Generic helper lemmas. -/

/-- A `countP` is at most the length. -/
theorem countTrue_le_length (mask : List Bool) : countTrue mask ≤ mask.length :=
  List.countP_le_length id

/-- Sum of a mapped list each of whose values is bounded by `c`. -/
theorem sum_le_card_mul {α : Type} (l : List α) (f : α → ℕ) (c : ℕ)
    (h : ∀ x ∈ l, f x ≤ c) : (l.map f).sum ≤ l.length * c := by
  induction l with
  | nil => simp
  | cons a t ih =>
    simp only [List.map_cons, List.sum_cons, List.length_cons]
    have ha := h a (by simp)
    have ht := ih (fun x hx => h x (by simp [hx]))
    calc f a + (t.map f).sum ≤ c + t.length * c := Nat.add_le_add ha ht
    _ = (t.length + 1) * c := by ring

/-- `mapM` into `Except` succeeds with the pointwise map when every
element maps to a success. -/
theorem mapM_ok_of_all {α β : Type} (l : List α) (f : α → Except PyErr β) (g : α → β)
    (h : ∀ a ∈ l, f a = .ok (g a)) : l.mapM f = .ok (l.map g) := by
  induction l with
  | nil => rfl
  | cons a t ih =>
    have ha := h a (by simp)
    have ht := ih (fun x hx => h x (by simp [hx]))
    rw [List.mapM_cons, ha, ht]
    rfl

/-- A column projected out of the frame always has one cell per row. -/
theorem colAt_length (df : DF) (i : Nat) : (df.colAt i).length = df.nRows := by
  simp [DF.colAt, DF.nRows]

/-- The guarded percentage is nonnegative. -/
theorem pctOf_nonneg (a b : Nat) : 0 ≤ pctOf a b := by
  unfold pctOf
  split
  · exact le_refl 0
  · positivity

/-- The guarded percentage of a part over a whole is at most one. -/
theorem pctOf_le_one (a b : Nat) (h : a ≤ b) : pctOf a b ≤ 1 := by
  unfold pctOf
  split
  · exact zero_le_one
  · next hb =>
    rw [div_le_one (by positivity)]
    exact_mod_cast h

/-- The guarded integer percentage of a nonnegative count is
nonnegative. -/
theorem pctZ_nonneg (c : ℤ) (b : Nat) (h : 0 ≤ c) : 0 ≤ pctZ c b := by
  unfold pctZ
  split
  · exact le_refl 0
  · exact div_nonneg (by exact_mod_cast h) (by positivity)

/-- The guarded integer percentage is bounded by `k` when the count is
at most `k` times the total. -/
theorem pctZ_le_cast (c : ℤ) (b k : Nat) (h : c ≤ ((k * b : ℕ) : ℤ)) :
    pctZ c b ≤ (k : ℚ) := by
  unfold pctZ
  split
  · positivity
  · next hb =>
    have hb0 : (0 : ℚ) < (b : ℚ) := by exact_mod_cast Nat.pos_of_ne_zero hb
    rw [div_le_iff₀ hb0]
    calc (c : ℚ) ≤ (((k * b : ℕ) : ℤ) : ℚ) := by exact_mod_cast h
      _ = (k : ℚ) * (b : ℚ) := by push_cast; ring

/-! Claim C8: the completeness global missing count is the sum of the
per-column missing counts. -/

/-- C8: for every dataset the completeness check's global missing count
equals the sum over all columns of that column's missing count, and on
`{a:[1,null,3], b:[null,null,3]}` the global count is 3 with column `a`
contributing 1 and column `b` contributing 2. -/
theorem completeness_global_is_sum :
    (∀ df : DF, (compute_completeness df).1.global.count =
      (((compute_completeness df).1.columns).map (fun e => e.2.count)).sum) ∧
    (compute_completeness dfAB).1.global.count = 3 ∧
    lookupS (compute_completeness dfAB).1.columns "a" = some ⟨1, 1 / 3⟩ ∧
    lookupS (compute_completeness dfAB).1.columns "b" = some ⟨2, 2 / 3⟩ := by
  refine ⟨fun df => ?_, by rfl, by rfl, by rfl⟩
  simp [compute_completeness, List.map_map, Function.comp_def]

/-! Claim C9: whole-row duplicate semantics of `df.duplicated()`. -/

/-- Auxiliary characterization of `dupFlagsAux`: the flag at `i` is set
exactly when the row equals an earlier row or one already seen. -/
theorem dupFlagsAux_getD (seen rows : List (List Cell)) (i : Nat) (h : i < rows.length) :
    ((dupFlagsAux seen rows).getD i false = true ↔
      rows.getD i [] ∈ seen ∨ ∃ j, j < i ∧ rows.getD j [] = rows.getD i []) := by
  induction rows generalizing seen i with
  | nil => simp at h
  | cons r rest ih =>
    cases i with
    | zero =>
      simp [dupFlagsAux]
    | succ k =>
      have hk : k < rest.length := Nat.lt_of_succ_lt_succ h
      have := ih (r :: seen) k hk
      simp only [dupFlagsAux, List.getD_cons_succ]
      rw [this]
      constructor
      · rintro (hmem | ⟨j, hj, hje⟩)
        · rcases List.mem_cons.mp hmem with heq | hseen
          · exact Or.inr ⟨0, Nat.succ_pos k, by simpa using heq.symm⟩
          · exact Or.inl hseen
        · exact Or.inr ⟨j + 1, Nat.succ_lt_succ hj, by simpa using hje⟩
      · rintro (hseen | ⟨j, hj, hje⟩)
        · exact Or.inl (List.mem_cons_of_mem r hseen)
        · cases j with
          | zero =>
            refine Or.inl ?_
            simp only [List.getD_cons_zero, List.getD_cons_succ] at hje
            rw [← hje]
            exact List.mem_cons_self r seen
          | succ m =>
            exact Or.inr ⟨m, Nat.lt_of_succ_lt_succ hj, by simpa using hje⟩

/-- C9: a row is flagged by `df.duplicated()` exactly when an identical
row occurs at an earlier position, so the first occurrence of each
distinct row is never counted. -/
theorem duplicated_iff_earlier (rows : List (List Cell)) (i : Nat) (h : i < rows.length) :
    (dupFlags rows).getD i false = true ↔
      ∃ j, j < i ∧ rows.getD j [] = rows.getD i [] := by
  have := dupFlagsAux_getD [] rows i h
  simpa [dupFlags] using this

/-- Metrics of a uniqueness run that did not raise. -/
def uniqMetrics (e : Except PyErr (UniquenessMetrics × List Issue)) :
    Option UniquenessMetrics :=
  match e with
  | .ok r => some r.1
  | .error _ => none

/-- Witness for C9 at the specification's example: row 1 of
`{id:[1,1,2], value:[10,10,20]}` is a duplicate of row 0, the duplicate
count is 1 and the id-key group also counts 1. -/
theorem duplicated_iff_earlier_witness :
    (1 < dfIdVal.rows.length ∧ (dupFlags dfIdVal.rows).getD 1 false = true) ∧
    (uniqMetrics (compute_uniqueness dfIdVal (some ["id"]) none)).map
      (fun m => m.duplicate_rows_count) = some 1 ∧
    (uniqMetrics (compute_uniqueness dfIdVal (some ["id"]) none)).map
      (fun m => lookupS m.duplicates_on_key "id_cols") = some (some ⟨1, 1 / 3, ["id"]⟩) := by
  refine ⟨⟨by decide, ?_⟩, by rfl, by rfl⟩
  exact (duplicated_iff_earlier dfIdVal.rows 1 (by decide)).mpr
    ⟨0, Nat.zero_lt_one, by rfl⟩

/-! Claim C3: issue counts. The code emits `row_rule_error` issues with
count 0, against the spec's every-issue-has-positive-count invariant;
and a bare-column rule on an int64 column even yields a
`row_rule_violation` issue with a negative count, so the positive-count
results below are guarded by the rules evaluating to boolean series or
`RulesError`. -/

/-- Issues of a consistency run that did not raise. -/
def consIssues (e : Except PyErr (ConsistencyMetrics × List Issue)) : Option (List Issue) :=
  match e with
  | .ok r => some r.2
  | .error _ => none

/-- Global invalid percentage of a consistency run that did not raise. -/
def consGlobalPct (e : Except PyErr (ConsistencyMetrics × List Issue)) : Option ℚ :=
  match e with
  | .ok r => some r.1.global.pct
  | .error _ => none

/-- C3 counterexample: a row rule with a syntax error makes
`compute_consistency` emit a `row_rule_error` issue whose count is 0, not
positive as claimed. -/
theorem row_rule_error_count_zero :
    consIssues (compute_consistency dfAgeRow (some rulesBadParse)) =
      some [Issue.mk "row_rule_error" [] 0 ["Unexpected end of expression"]] := by
  rfl

/-- Issues of one consistency rule step whose evaluation outcome is
recoverable (a boolean series or a `RulesError`): a `row_rule_error` has
count 0, anything else has positive count.  (A raw int64 result — ruled
out by the hypothesis — can carry a negative count instead.) -/
theorem consRule_issue_counts (df : DF) (rule : RowRule)
    (hrec : recoverableEval (evaluate_row_rule rule.expr df) = true)
    (entry : Option (String × RuleMetric)) (cnt : ℤ) (iss : List Issue)
    (h : consRule df rule = .ok (entry, cnt, iss)) :
    ∀ i ∈ iss, (i.type = "row_rule_error" ∧ i.count = 0) ∨
      (i.type ≠ "row_rule_error" ∧ 0 < i.count) := by
  unfold consRule at h
  cases hev : evaluate_row_rule rule.expr df with
  | error e =>
    cases e with
    | rulesError msg =>
      rw [hev] at h
      simp only [Except.ok.injEq, Prod.mk.injEq] at h
      obtain ⟨-, -, hiss⟩ := h
      intro i hi
      rw [← hiss] at hi
      simp only [List.mem_singleton] at hi
      subst hi
      exact Or.inl ⟨rfl, rfl⟩
    | typeError msg => rw [hev] at h; exact absurd h (by simp)
    | indexError msg => rw [hev] at h; exact absurd h (by simp)
    | valueError msg => rw [hev] at h; exact absurd h (by simp)
    | reError msg => rw [hev] at h; exact absurd h (by simp)
  | ok rs =>
    cases rs with
    | raw cells obj =>
      rw [hev] at hrec
      exact absurd hrec (by simp [recoverableEval])
    | bools bs =>
      rw [hev] at h
      simp only [Except.ok.injEq, Prod.mk.injEq] at h
      obtain ⟨-, -, hiss⟩ := h
      intro i hi
      rw [← hiss] at hi
      by_cases hz : countTrue (bs.map (fun b => !b)) ≠ 0
      · rw [if_pos hz] at hi
        simp only [List.mem_singleton] at hi
        subst hi
        exact Or.inr ⟨by simp, Int.natCast_pos.mpr (Nat.pos_of_ne_zero hz)⟩
      · rw [if_neg hz] at hi
        exact absurd hi (List.not_mem_nil i)

/-- Issue counts over the whole consistency rule loop, when every rule's
evaluation outcome is recoverable. -/
theorem consLoop_issue_counts (df : DF) (rrs : List RowRule)
    (hrec : ∀ rule ∈ rrs, recoverableEval (evaluate_row_rule rule.expr df) = true)
    (entries : List (String × RuleMetric)) (total : ℤ) (iss : List Issue)
    (h : consLoop df rrs = .ok (entries, total, iss)) :
    ∀ i ∈ iss, (i.type = "row_rule_error" ∧ i.count = 0) ∨
      (i.type ≠ "row_rule_error" ∧ 0 < i.count) := by
  induction rrs generalizing entries total iss with
  | nil =>
    simp only [consLoop, Except.ok.injEq, Prod.mk.injEq] at h
    obtain ⟨-, -, hiss⟩ := h
    intro i hi
    rw [← hiss] at hi
    exact absurd hi (List.not_mem_nil i)
  | cons rule rest ih =>
    rw [consLoop] at h
    cases h1 : consRule df rule with
    | error e => rw [h1] at h; exact absurd h (by simp)
    | ok v1 =>
      obtain ⟨entry1, cnt1, iss1⟩ := v1
      cases h2 : consLoop df rest with
      | error e => rw [h1, h2] at h; exact absurd h (by simp)
      | ok v2 =>
        obtain ⟨entries2, total2, iss2⟩ := v2
        rw [h1, h2] at h
        simp only [Except.ok.injEq, Prod.mk.injEq] at h
        obtain ⟨-, -, hiss⟩ := h
        intro i hi
        rw [← hiss] at hi
        rcases List.mem_append.mp hi with h1m | h2m
        · exact consRule_issue_counts df rule (hrec rule (by simp)) entry1 cnt1 iss1 h1 i h1m
        · exact ih (fun r hr => hrec r (by simp [hr])) entries2 total2 iss2 h2 i h2m

/-- Issues of one key-group pass that did not raise all carry positive
counts. -/
theorem handle_key_issue_counts (df : DF) (keyCols : List String) (label : String)
    (r : List (String × KeyMetric) × List Issue) (h : handle_key df keyCols label = .ok r) :
    ∀ i ∈ r.2, 0 < i.count := by
  unfold handle_key at h
  by_cases hm : keyCols.filter (fun c => !(df.names.contains c)) ≠ []
  · rw [if_pos hm] at h
    injection h with h2
    subst h2
    intro i hi
    simp only [List.mem_singleton] at hi
    subst hi
    exact Int.natCast_pos.mpr (List.length_pos.mpr hm)
  · rw [if_neg hm] at h
    by_cases he : (keyCols.isEmpty && !pdEmpty df) = true
    · rw [if_pos he] at h
      exact absurd h (by simp)
    · rw [if_neg he] at h
      by_cases hd : countTrue (dupFlags (projectRows df keyCols)) ≠ 0
      · rw [if_pos hd] at h
        injection h with h2
        subst h2
        intro i hi
        simp only [List.mem_singleton] at hi
        subst hi
        exact Int.natCast_pos.mpr (Nat.pos_of_ne_zero hd)
      · rw [if_neg hd] at h
        injection h with h2
        subst h2
        intro i hi
        exact absurd hi (List.not_mem_nil i)

/-- Issues of the id-column pass that did not raise all carry positive
counts. -/
theorem idPartOf_issue_counts (df : DF) (ic : Option (List String))
    (r : List (String × KeyMetric) × List Issue) (h : idPartOf df ic = .ok r) :
    ∀ i ∈ r.2, 0 < i.count := by
  rcases ic with _ | ics
  · unfold idPartOf at h
    injection h with h2
    subst h2
    intro i hi
    exact absurd hi (List.not_mem_nil i)
  · unfold idPartOf at h
    dsimp only at h
    by_cases he : ics.isEmpty
    · rw [if_pos he] at h
      injection h with h2
      subst h2
      intro i hi
      exact absurd hi (List.not_mem_nil i)
    · rw [if_neg he] at h
      exact handle_key_issue_counts df ics "id_cols" r h

/-- Issues of the unique-key loop that did not raise all carry positive
counts. -/
theorem ukLoop_issue_counts (df : DF) (gs : List (List String)) :
    ∀ (n : Nat) (r : List (String × KeyMetric) × List Issue),
      ukLoop df n gs = .ok r → ∀ i ∈ r.2, 0 < i.count := by
  induction gs with
  | nil =>
    intro n r h
    injection h with h2
    subst h2
    intro i hi
    exact absurd hi (List.not_mem_nil i)
  | cons g rest ih =>
    intro n r h
    rw [ukLoop] at h
    cases h1 : handle_key df g ("unique_key_" ++ toString n) with
    | error e => rw [h1] at h; exact absurd h (by simp)
    | ok r1 =>
      cases h2 : ukLoop df (n + 1) rest with
      | error e => rw [h1, h2] at h; exact absurd h (by simp)
      | ok r2 =>
        rw [h1, h2] at h
        injection h with h3
        subst h3
        intro i hi
        rcases List.mem_append.mp hi with h1m | h2m
        · exact handle_key_issue_counts df g _ r1 h1 i h1m
        · exact ih (n + 1) r2 h2 i h2m

/-- Issues of the unique-key pass that did not raise all carry positive
counts. -/
theorem ukPartOf_issue_counts (df : DF) (uk : Option (List (List String)))
    (r : List (String × KeyMetric) × List Issue) (h : ukPartOf df uk = .ok r) :
    ∀ i ∈ r.2, 0 < i.count := by
  rcases uk with _ | uks
  · unfold ukPartOf at h
    injection h with h2
    subst h2
    intro i hi
    exact absurd hi (List.not_mem_nil i)
  · unfold ukPartOf at h
    exact ukLoop_issue_counts df uks 1 r h

/-- Issues of a uniqueness run that did not raise all carry positive
counts. -/
theorem uniqueness_issue_counts (df : DF) (ic : Option (List String))
    (uk : Option (List (List String))) (y : UniquenessMetrics × List Issue)
    (h : compute_uniqueness df ic uk = .ok y) : ∀ i ∈ y.2, 0 < i.count := by
  unfold compute_uniqueness at h
  cases hid : idPartOf df ic with
  | error e => rw [hid] at h; exact absurd h (by simp)
  | ok idPart =>
    cases huk : ukPartOf df uk with
    | error e => rw [hid, huk] at h; exact absurd h (by simp)
    | ok ukPart =>
      rw [hid, huk] at h
      injection h with h2
      subst h2
      intro i hi
      rcases List.mem_append.mp hi with hbi | huki
      · rcases List.mem_append.mp hbi with hb | hidm
        · by_cases hd : countTrue (dupFlags df.rows) ≠ 0
          · rw [if_pos hd] at hb
            simp only [List.mem_singleton] at hb
            subst hb
            exact Int.natCast_pos.mpr (Nat.pos_of_ne_zero hd)
          · rw [if_neg hd] at hb
            exact absurd hb (List.not_mem_nil i)
        · exact idPartOf_issue_counts df ic idPart hid i hidm
      · exact ukPartOf_issue_counts df uk ukPart huk i huki

/-- C3 amended: whenever every row rule's evaluation outcome is a
boolean series or a `RulesError`, every issue of the consistency check
other than `row_rule_error` has positive count while a `row_rule_error`
issue always has count 0; every issue of a non-raising uniqueness run
(`missing_columns` and duplicate issues included) has positive count;
and the guard is necessary: a bare-column rule on an int64 column makes
the consistency check emit a `row_rule_violation` issue whose count is
the negative bitwise-inversion sum, here −2. -/
theorem issue_count_invariant :
    (∀ (df : DF) (rules : Option Rules) (m : ConsistencyMetrics) (iss : List Issue),
      (∀ rule ∈ rowRulesOf rules,
        recoverableEval (evaluate_row_rule rule.expr df) = true) →
      compute_consistency df rules = .ok (m, iss) →
      ∀ i ∈ iss, (i.type = "row_rule_error" ∧ i.count = 0) ∨
        (i.type ≠ "row_rule_error" ∧ 0 < i.count)) ∧
    (∀ (df : DF) (ic : Option (List String)) (uk : Option (List (List String)))
      (y : UniquenessMetrics × List Issue),
      compute_uniqueness df ic uk = .ok y → ∀ i ∈ y.2, 0 < i.count) ∧
    consIssues (compute_consistency dfIntAge (some rulesBareAge)) =
      some [Issue.mk "row_rule_violation" [] (-2) ["1", "1"]] := by
  refine ⟨fun df rules m iss hrec h => ?_, uniqueness_issue_counts,
    by with_unfolding_all rfl⟩
  unfold compute_consistency at h
  rcases rules with _ | rs
  all_goals dsimp only at h
  · injection h with h
    injection h with h1 h2
    intro i hi
    rw [← h2] at hi
    exact absurd hi (List.not_mem_nil i)
  · by_cases he : rs.row_rules.isEmpty
    · rw [if_pos he] at h
      injection h with h
      injection h with h1 h2
      intro i hi
      rw [← h2] at hi
      exact absurd hi (List.not_mem_nil i)
    · rw [if_neg he] at h
      cases hl : consLoop df rs.row_rules with
      | error e => rw [hl] at h; exact absurd h (by simp)
      | ok v =>
        obtain ⟨entries, total, iss0⟩ := v
        rw [hl] at h
        simp only [Except.ok.injEq, Prod.mk.injEq] at h
        intro i hi
        rw [← h.2] at hi
        exact consLoop_issue_counts df rs.row_rules hrec entries total iss0 hl i hi

/-- Witness for C3 amended at concrete runs: the bad-parse ruleset (a
recoverable `RulesError`) produces exactly one issue, a `row_rule_error`
with count 0, and the uniqueness issues of the duplicate example all
have positive counts. -/
theorem issue_count_invariant_witness :
    ((∀ rule ∈ rowRulesOf (some rulesBadParse),
        recoverableEval (evaluate_row_rule rule.expr dfAgeRow) = true) ∧
      (∀ i ∈ [Issue.mk "row_rule_error" [] 0 ["Unexpected end of expression"]],
        (i.type = "row_rule_error" ∧ i.count = 0) ∨
          (i.type ≠ "row_rule_error" ∧ 0 < i.count))) ∧
    (∀ i ∈ [Issue.mk "duplicate_rows" [] (1 : ℤ) ["1"],
        Issue.mk "duplicate_key" ["id"] (1 : ℤ) ["1"]], 0 < i.count) := by
  have hg : ∀ rule ∈ rowRulesOf (some rulesBadParse),
      recoverableEval (evaluate_row_rule rule.expr dfAgeRow) = true := by
    intro rule hr
    rcases List.mem_cons.mp hr with h | h
    · rw [h]
      with_unfolding_all rfl
    · exact absurd h (List.not_mem_nil rule)
  refine ⟨⟨hg, ?_⟩, ?_⟩
  · exact issue_count_invariant.1 dfAgeRow (some rulesBadParse)
      ⟨⟨0, pctZ 0 2⟩, [("bad", ⟨0, 0, "age >"⟩)]⟩
      [Issue.mk "row_rule_error" [] 0 ["Unexpected end of expression"]] hg
      (by with_unfolding_all rfl)
  · exact issue_count_invariant.2.1 dfIdVal (some ["id"]) none
      (⟨1, pctOf 1 3, [("id_cols", ⟨1, pctOf 1 3, ["id"]⟩)]⟩,
        [Issue.mk "duplicate_rows" [] 1 ["1"], Issue.mk "duplicate_key" ["id"] 1 ["1"]])
      (by with_unfolding_all rfl)

/-! Claim C5: row-rule pass semantics — a row passes exactly when the
evaluated result is true (`~result.fillna(False)` inverts the
null-filled series, so a null or false result marks the row invalid). -/

/-- Ruleset holding only the age-range rule of the specification. -/
def rulesAgeOnly : Rules := ⟨[], [], [ruleAgeRange]⟩

/-- Complementary counts: the false entries and the true entries of a
boolean series exhaust it. -/
theorem countP_not_add_countP (bs : List Bool) :
    bs.countP (fun b => !b) + bs.countP (fun b => b) = bs.length := by
  induction bs with
  | nil => rfl
  | cons a t ih => cases a <;> simp [List.countP_cons] <;> omega

/-- C5: when a row rule evaluates to a boolean result series, the
consistency step counts exactly the non-true rows as invalid (so a row
passes iff its result is true, and invalid plus passing rows exhaust the
series), and emits a `row_rule_violation` issue with that count exactly
when it is positive. -/
theorem row_pass_iff_true (df : DF) (rule : RowRule) (bs : List Bool)
    (h : evaluate_row_rule rule.expr df = .ok (.bools bs)) :
    consRule df rule = .ok
      (some (rule.name,
        ⟨countTrue (bs.map (fun b => !b)),
          pctOf (countTrue (bs.map (fun b => !b))) df.nRows, rule.expr⟩),
        countTrue (bs.map (fun b => !b)),
        if countTrue (bs.map (fun b => !b)) ≠ 0 then
          [Issue.mk "row_rule_violation" [] (countTrue (bs.map (fun b => !b)))
            (rows_to_examples ((maskIndices (bs.map (fun b => !b))).map toString))]
        else []) ∧
    countTrue (bs.map (fun b => !b)) + bs.countP (fun b => b) = bs.length := by
  constructor
  · unfold consRule
    rw [h]
  · have hm : countTrue (bs.map (fun b => !b)) = bs.countP (fun b => !b) := by
      unfold countTrue
      rw [List.countP_map]
      rfl
    rw [hm]
    exact countP_not_add_countP bs

/-- Witness for C5 at the specification's example: the rule
`age >= 0 and age <= 120` on ages `[30, null]` evaluates to
`[true, false]` (null counted as failing), the invalid count is 1 and a
`row_rule_violation` issue with count 1 is emitted. -/
theorem row_pass_iff_true_witness :
    (evaluate_row_rule ruleAgeRange.expr dfAgeRow = .ok (.bools [true, false]) ∧
      consRule dfAgeRow ruleAgeRange = .ok
        (some (ruleAgeRange.name,
          ⟨countTrue ([true, false].map (fun b => !b)),
            pctOf (countTrue ([true, false].map (fun b => !b))) dfAgeRow.nRows,
            ruleAgeRange.expr⟩),
          countTrue ([true, false].map (fun b => !b)),
          if countTrue ([true, false].map (fun b => !b)) ≠ 0 then
            [Issue.mk "row_rule_violation" []
              (countTrue ([true, false].map (fun b => !b)))
              (rows_to_examples
                ((maskIndices ([true, false].map (fun b => !b))).map toString))]
          else [])) ∧
    consIssues (compute_consistency dfAgeRow (some rulesAgeOnly)) =
      some [Issue.mk "row_rule_violation" [] 1 ["1"]] :=
  ⟨⟨by with_unfolding_all rfl,
    (row_pass_iff_true dfAgeRow ruleAgeRange [true, false]
      (by with_unfolding_all rfl)).1⟩, by with_unfolding_all rfl⟩

/-! Claim C10: the tokenizer and the minus sign. The token regex has no
minus alternative, so a bare `-` fails; but a `-` inside a quoted string
literal is consumed by the STRING alternative, so not every expression
containing `-` is rejected. -/

/-- The expression `x == 'a-b'` (built character by character). -/
def exprDash : String :=
  String.mk ['x', ' ', '=', '=', ' ', sq, 'a', '-', 'b', sq]

/-- A matched token's text and the remaining input reassemble the
input. -/
theorem matchTok_split (c : Char) (cs : List Char) (k : TokKind) (tk rest : List Char)
    (h : matchTok c cs = some (k, tk, rest)) : c :: cs = tk ++ rest := by
  unfold matchTok at h
  split at h
  · -- NUMBER
    have hsplit := List.takeWhile_append_dropWhile Char.isDigit (c :: cs)
    split at h
    · next d r2 hr1 =>
      split at h
      · simp only [Option.some.injEq, Prod.mk.injEq] at h
        obtain ⟨-, htk, hrest⟩ := h
        rw [← htk, ← hrest]
        have h2 := List.takeWhile_append_dropWhile Char.isDigit r2
        calc c :: cs = (c :: cs).takeWhile Char.isDigit ++ (c :: cs).dropWhile Char.isDigit :=
              hsplit.symm
          _ = (c :: cs).takeWhile Char.isDigit ++ (d :: r2) := by rw [hr1]
          _ = (c :: cs).takeWhile Char.isDigit ++ d :: (r2.takeWhile Char.isDigit ++
                r2.dropWhile Char.isDigit) := by rw [h2]
          _ = ((c :: cs).takeWhile Char.isDigit ++ d :: r2.takeWhile Char.isDigit) ++
                r2.dropWhile Char.isDigit := by simp
      · simp only [Option.some.injEq, Prod.mk.injEq] at h
        obtain ⟨-, htk, hrest⟩ := h
        rw [← htk, ← hrest]
        exact hsplit.symm
    · next hr1 =>
      simp only [Option.some.injEq, Prod.mk.injEq] at h
      obtain ⟨-, htk, hrest⟩ := h
      rw [← htk, ← hrest, ← hr1]
      exact hsplit.symm
  · split at h
    · -- STRING
      split at h
      · next q rest2 hdrop =>
        simp only [Option.some.injEq, Prod.mk.injEq] at h
        obtain ⟨-, htk, hrest⟩ := h
        rw [← htk, ← hrest]
        have h2 := List.takeWhile_append_dropWhile (fun x => x ≠ c) cs
        rw [hdrop] at h2
        simp only [List.cons_append, List.append_assoc, List.singleton_append,
          List.nil_append]
        rw [h2]
      · exact absurd h (by simp)
    · split at h
      · -- < or >
        split at h
        · next rest2 =>
          simp only [Option.some.injEq, Prod.mk.injEq] at h
          obtain ⟨-, htk, hrest⟩ := h
          rw [← htk, ← hrest]
          rfl
        · simp only [Option.some.injEq, Prod.mk.injEq] at h
          obtain ⟨-, htk, hrest⟩ := h
          rw [← htk, ← hrest]
          rfl
      · split at h
        · -- = or !
          split at h
          · next rest2 =>
            simp only [Option.some.injEq, Prod.mk.injEq] at h
            obtain ⟨-, htk, hrest⟩ := h
            rw [← htk, ← hrest]
            rfl
          · exact absurd h (by simp)
        · split at h
          · -- LPAREN
            simp only [Option.some.injEq, Prod.mk.injEq] at h
            obtain ⟨-, htk, hrest⟩ := h
            rw [← htk, ← hrest]
            rfl
          · split at h
            · -- RPAREN
              simp only [Option.some.injEq, Prod.mk.injEq] at h
              obtain ⟨-, htk, hrest⟩ := h
              rw [← htk, ← hrest]
              rfl
            · split at h
              · -- COMMA
                simp only [Option.some.injEq, Prod.mk.injEq] at h
                obtain ⟨-, htk, hrest⟩ := h
                rw [← htk, ← hrest]
                rfl
              · split at h
                · -- IDENT
                  simp only [Option.some.injEq, Prod.mk.injEq] at h
                  obtain ⟨-, htk, hrest⟩ := h
                  rw [← htk, ← hrest]
                  simp only [List.cons_append]
                  rw [List.takeWhile_append_dropWhile isIdentChar cs]
                · exact absurd h (by simp)

/-- Characters of a non-STRING matched token never include a minus sign:
no regex alternative other than STRING can consume one. -/
theorem matchTok_nodash (c : Char) (cs : List Char) (k : TokKind) (tk rest : List Char)
    (h : matchTok c cs = some (k, tk, rest)) (hk : k ≠ TokKind.STRING) :
    ∀ x ∈ tk, x ≠ '-' := by
  unfold matchTok at h
  split at h
  · -- NUMBER
    next hdig =>
    split at h
    · next d r2 hr1 =>
      split at h
      · next hfrac =>
        simp only [Option.some.injEq, Prod.mk.injEq] at h
        obtain ⟨-, htk, -⟩ := h
        intro x hx he
        rw [← htk] at hx
        rcases List.mem_append.mp hx with hx1 | hx2
        · have := List.mem_takeWhile_imp hx1
          rw [he] at this
          exact absurd this (by decide)
        · rcases List.mem_cons.mp hx2 with hx3 | hx4
          · have hd : d = '.' :=
              of_decide_eq_true (by simpa using ((Bool.and_eq_true _ _).mp hfrac).1)
            rw [← hx3, he] at hd
            exact absurd hd (by decide)
          · have := List.mem_takeWhile_imp hx4
            rw [he] at this
            exact absurd this (by decide)
      · simp only [Option.some.injEq, Prod.mk.injEq] at h
        obtain ⟨-, htk, -⟩ := h
        intro x hx he
        rw [← htk] at hx
        have := List.mem_takeWhile_imp hx
        rw [he] at this
        exact absurd this (by decide)
    · simp only [Option.some.injEq, Prod.mk.injEq] at h
      obtain ⟨-, htk, -⟩ := h
      intro x hx he
      rw [← htk] at hx
      have := List.mem_takeWhile_imp hx
      rw [he] at this
      exact absurd this (by decide)
  · split at h
    · -- STRING: excluded by the kind hypothesis
      split at h
      · simp only [Option.some.injEq, Prod.mk.injEq] at h
        exact absurd h.1.symm hk
      · exact absurd h (by simp)
    · split at h
      · -- < or >
        next hc =>
        have hc2 : c = '<' ∨ c = '>' := by
          rcases Bool.or_eq_true _ _ |>.mp hc with h1 | h1
          · exact Or.inl (of_decide_eq_true h1)
          · exact Or.inr (of_decide_eq_true h1)
        split at h
        · simp only [Option.some.injEq, Prod.mk.injEq] at h
          obtain ⟨-, htk, -⟩ := h
          intro x hx he
          rw [← htk] at hx
          rcases hc2 with hc3 | hc3 <;> subst hc3 <;> subst he <;> simp at hx
        · simp only [Option.some.injEq, Prod.mk.injEq] at h
          obtain ⟨-, htk, -⟩ := h
          intro x hx he
          rw [← htk] at hx
          rcases hc2 with hc3 | hc3 <;> subst hc3 <;> subst he <;> simp at hx
      · split at h
        · -- = or !
          next hc =>
          have hc2 : c = '=' ∨ c = '!' := by
            rcases Bool.or_eq_true _ _ |>.mp hc with h1 | h1
            · exact Or.inl (of_decide_eq_true h1)
            · exact Or.inr (of_decide_eq_true h1)
          split at h
          · simp only [Option.some.injEq, Prod.mk.injEq] at h
            obtain ⟨-, htk, -⟩ := h
            intro x hx he
            rw [← htk] at hx
            rcases hc2 with hc3 | hc3 <;> subst hc3 <;> subst he <;> simp at hx
          · exact absurd h (by simp)
        · split at h
          · -- LPAREN
            next hc =>
            simp only [Option.some.injEq, Prod.mk.injEq] at h
            obtain ⟨-, htk, -⟩ := h
            intro x hx he
            rw [← htk] at hx
            rw [hc] at hx
            subst he
            simp at hx
          · split at h
            · -- RPAREN
              next hc =>
              simp only [Option.some.injEq, Prod.mk.injEq] at h
              obtain ⟨-, htk, -⟩ := h
              intro x hx he
              rw [← htk] at hx
              rw [hc] at hx
              subst he
              simp at hx
            · split at h
              · -- COMMA
                next hc =>
                simp only [Option.some.injEq, Prod.mk.injEq] at h
                obtain ⟨-, htk, -⟩ := h
                intro x hx he
                rw [← htk] at hx
                rw [hc] at hx
                subst he
                simp at hx
              · split at h
                · -- IDENT
                  next hc =>
                  simp only [Option.some.injEq, Prod.mk.injEq] at h
                  obtain ⟨-, htk, -⟩ := h
                  intro x hx he
                  rw [← htk] at hx
                  rcases List.mem_cons.mp hx with hx1 | hx2
                  · rw [he] at hx1
                    rw [← hx1] at hc
                    exact absurd hc (by decide)
                  · have := List.mem_takeWhile_imp hx2
                    rw [he] at this
                    exact absurd this (by decide)
                · exact absurd h (by simp)

/-- Characters of a NUMBER token are digits or the decimal point:
number literals are unsigned. -/
theorem matchTok_num_chars (c : Char) (cs : List Char) (tk rest : List Char)
    (h : matchTok c cs = some (TokKind.NUMBER, tk, rest)) :
    ∀ x ∈ tk, x.isDigit = true ∨ x = '.' := by
  unfold matchTok at h
  split at h
  · split at h
    · next d r2 hr1 =>
      split at h
      · next hfrac =>
        simp only [Option.some.injEq, Prod.mk.injEq] at h
        obtain ⟨-, htk, -⟩ := h
        intro x hx
        rw [← htk] at hx
        rcases List.mem_append.mp hx with hx1 | hx2
        · exact Or.inl (List.mem_takeWhile_imp hx1)
        · rcases List.mem_cons.mp hx2 with hx3 | hx4
          · refine Or.inr ?_
            rw [hx3]
            exact of_decide_eq_true (by simpa using ((Bool.and_eq_true _ _).mp hfrac).1)
          · exact Or.inl (List.mem_takeWhile_imp hx4)
      · simp only [Option.some.injEq, Prod.mk.injEq] at h
        obtain ⟨-, htk, -⟩ := h
        intro x hx
        rw [← htk] at hx
        exact Or.inl (List.mem_takeWhile_imp hx)
    · simp only [Option.some.injEq, Prod.mk.injEq] at h
      obtain ⟨-, htk, -⟩ := h
      intro x hx
      rw [← htk] at hx
      exact Or.inl (List.mem_takeWhile_imp hx)
  · split at h
    · split at h
      · simp at h
      · exact absurd h (by simp)
    · split at h
      · split at h <;> simp at h
      · split at h
        · split at h
          · simp at h
          · exact absurd h (by simp)
        · split at h
          · simp at h
          · split at h
            · simp at h
            · split at h
              · simp at h
              · split at h
                · simp at h
                · exact absurd h (by simp)

/-- The keyword rewrite never produces NUMBER or STRING out of another
kind. -/
theorem kindRewrite_cases (k : TokKind) (s : String) :
    (if k = TokKind.IDENT && strLower s = "and" then TokKind.AND
     else if k = TokKind.IDENT && strLower s = "or" then TokKind.OR
     else k) = k ∨
    (if k = TokKind.IDENT && strLower s = "and" then TokKind.AND
     else if k = TokKind.IDENT && strLower s = "or" then TokKind.OR
     else k) = TokKind.AND ∨
    (if k = TokKind.IDENT && strLower s = "and" then TokKind.AND
     else if k = TokKind.IDENT && strLower s = "or" then TokKind.OR
     else k) = TokKind.OR := by
  split
  · exact Or.inr (Or.inl rfl)
  · split
    · exact Or.inr (Or.inr rfl)
    · exact Or.inl rfl

/-- Character tracking through the scanner: on success, every minus sign
of the input sits inside a STRING token, and every NUMBER token consists
of digits and at most one decimal point. -/
theorem tokenizeAux_chars (fuel : Nat) (cs : List Char) (toks : List Token)
    (h : tokenizeAux fuel cs = .ok toks) :
    (∀ c ∈ cs, c = '-' → ∃ t ∈ toks, t.1 = TokKind.STRING ∧ '-' ∈ t.2.toList) ∧
    (∀ t ∈ toks, t.1 = TokKind.NUMBER → ∀ x ∈ t.2.toList, x.isDigit = true ∨ x = '.') := by
  induction fuel generalizing cs toks with
  | zero => exact absurd h (by simp [tokenizeAux])
  | succ fuel ih =>
    cases cs with
    | nil =>
      rw [tokenizeAux] at h
      simp only [Except.ok.injEq] at h
      subst h
      exact ⟨fun c hc => absurd hc (List.not_mem_nil c), fun t ht => absurd ht (List.not_mem_nil t)⟩
    | cons c cs1 =>
      rw [tokenizeAux] at h
      split at h
      · -- whitespace skipped
        next hw =>
        obtain ⟨ih1, ih2⟩ := ih cs1 toks h
        refine ⟨?_, ih2⟩
        intro x hx he
        rcases List.mem_cons.mp hx with hx1 | hx2
        · rw [he] at hx1
          rw [← hx1] at hw
          exact absurd hw (by decide)
        · exact ih1 x hx2 he
      · -- a token is matched
        split at h
        · exact absurd h (by simp)
        · next k tk rest2 hmatch =>
          cases hrec : tokenizeAux fuel rest2 with
          | error e =>
            rw [hrec] at h
            exact absurd h (by simp)
          | ok toks1 =>
            rw [hrec] at h
            simp only [Except.ok.injEq] at h
            obtain ⟨ih1, ih2⟩ := ih rest2 toks1 hrec
            have hsplit := matchTok_split c cs1 k tk rest2 hmatch
            constructor
            · intro x hx he
              rw [hsplit] at hx
              rcases List.mem_append.mp hx with hx1 | hx2
              · -- the minus is inside this token: it must be a STRING
                have hks : k = TokKind.STRING := by
                  by_contra hkn
                  exact matchTok_nodash c cs1 k tk rest2 hmatch hkn x hx1 he
                subst hks
                refine ⟨((if TokKind.STRING = TokKind.IDENT &&
                    strLower (String.mk tk) = "and" then TokKind.AND
                  else if TokKind.STRING = TokKind.IDENT &&
                    strLower (String.mk tk) = "or" then TokKind.OR
                  else TokKind.STRING), String.mk tk), ?_, by simp, ?_⟩
                · rw [← h]
                  exact List.mem_cons_self _ _
                · rw [he] at hx1
                  simpa using hx1
              · rcases ih1 x hx2 he with ⟨t, ht, hts, htd⟩
                exact ⟨t, by rw [← h]; exact List.mem_cons_of_mem _ ht, hts, htd⟩
            · intro t ht htn
              rw [← h] at ht
              rcases List.mem_cons.mp ht with ht1 | ht2
              · -- head token: its kind is NUMBER only when matched as NUMBER
                have hkn : k = TokKind.NUMBER := by
                  rcases kindRewrite_cases k (String.mk tk) with hc | hc | hc
                  · rw [ht1] at htn
                    simp only at htn
                    rw [hc] at htn
                    exact htn
                  · rw [ht1] at htn
                    simp only at htn
                    rw [hc] at htn
                    exact absurd htn (by decide)
                  · rw [ht1] at htn
                    simp only at htn
                    rw [hc] at htn
                    exact absurd htn (by decide)
                subst hkn
                intro x hx
                rw [ht1] at hx
                simp only at hx
                have : x ∈ tk := by simpa using hx
                exact matchTok_num_chars c cs1 tk rest2 hmatch x this
              · exact ih2 t ht2 htn

/-- C10 amended: `tokenize` rejects a minus sign anywhere outside a
quoted string literal — on success every `-` of the expression lies
inside a STRING token — and NUMBER tokens are unsigned digit runs with
an optional decimal point, so negative numeric literals remain
inexpressible. -/
theorem tokenize_minus_only_in_strings (expr : String) (toks : List Token)
    (h : tokenize expr = .ok toks) :
    (∀ c ∈ expr.toList, c = '-' → ∃ t ∈ toks, t.1 = TokKind.STRING ∧ '-' ∈ t.2.toList) ∧
    (∀ t ∈ toks, t.1 = TokKind.NUMBER → ∀ x ∈ t.2.toList, x.isDigit = true ∨ x = '.') :=
  tokenizeAux_chars (expr.toList.length + 1) expr.toList toks h

/-- C10 counterexample: the expression `x == 'a-b'` contains a minus sign
yet tokenizes successfully (the STRING alternative consumes it), so
`tokenize` does not raise on every expression containing `-`. -/
theorem tokenize_dash_accepted :
    tokenize exprDash = .ok
      [(TokKind.IDENT, String.mk ['x']), (TokKind.OP, String.mk ['=', '=']),
        (TokKind.STRING, String.mk [sq, 'a', '-', 'b', sq])] ∧
    '-' ∈ exprDash.toList := by
  exact ⟨by rfl, by decide⟩

/-- Witness for C10 amended at `x == 'a-b'`: the minus sign of the
accepted expression indeed lies inside the STRING token. -/
theorem tokenize_minus_only_in_strings_witness :
    tokenize exprDash = .ok
      [(TokKind.IDENT, String.mk ['x']), (TokKind.OP, String.mk ['=', '=']),
        (TokKind.STRING, String.mk [sq, 'a', '-', 'b', sq])] ∧
    ((∀ c ∈ exprDash.toList, c = '-' →
        ∃ t ∈ [(TokKind.IDENT, String.mk ['x']), (TokKind.OP, String.mk ['=', '=']),
          (TokKind.STRING, String.mk [sq, 'a', '-', 'b', sq])],
          t.1 = TokKind.STRING ∧ '-' ∈ t.2.toList) ∧
      (∀ t ∈ [(TokKind.IDENT, String.mk ['x']), (TokKind.OP, String.mk ['=', '=']),
          (TokKind.STRING, String.mk [sq, 'a', '-', 'b', sq])],
        t.1 = TokKind.NUMBER → ∀ x ∈ t.2.toList, x.isDigit = true ∨ x = '.')) :=
  ⟨by rfl, tokenize_minus_only_in_strings exprDash _ (by rfl)⟩

/-! Claim C4: the comparison semantics on null operands. The spec says a
comparison with a null operand yields null; on a numeric (float64) column
pandas treats the null as NaN, so the comparison yields plain False (True
for `!=`) and the evaluator is two-valued. -/

/-- Numeric comparison result for one of the six operators. -/
def ratCmpNum (op : String) (x y : ℚ) : Bool :=
  if op = "==" then decide (x = y)
  else if op = "!=" then decide (x ≠ y)
  else if op = "<" then decide (x < y)
  else if op = "<=" then decide (x ≤ y)
  else if op = ">" then decide (y < x)
  else decide (y ≤ x)

/-- Comparing NaN (the null of a numeric column) against a number gives
false for every operator except `!=`. -/
theorem cmpAtom_nan_num (op : String)
    (hop : op = "<" ∨ op = "<=" ∨ op = ">" ∨ op = ">=" ∨ op = "==") (q : ℚ) :
    cmpAtom op (.anull true) (.anum q) = .ok false := by
  rcases hop with h | h | h | h | h <;> subst h <;> rfl

/-- Comparing two numbers follows the numeric order. -/
theorem cmpAtom_num_num (op : String)
    (hop : op = "<" ∨ op = "<=" ∨ op = ">" ∨ op = ">=" ∨ op = "==" ∨ op = "!=")
    (x q : ℚ) : cmpAtom op (.anum x) (.anum q) = .ok (ratCmpNum op x q) := by
  rcases hop with h | h | h | h | h | h <;> subst h <;> rfl

/-- C4 amended: on a numeric-dtype column, a comparison node against a
number literal evaluates each null row to plain `false` for
`<`, `<=`, `>`, `>=`, `==` and to plain `true` for `!=` — a boolean, not
a propagated null. -/
theorem comparison_with_null_is_false (df : DF) (name : String) (q : ℚ) (cells : List Cell)
    (h2 : df.colCells name = some cells) (h3 : numericDtypeCol cells = true) :
    (∀ op ∈ (["<", "<=", ">", ">=", "=="] : List String),
      eval_ast df (.cmpN op (.identN name) (.numberN q)) =
        .ok (.vbools (cells.map (fun c => match c with
          | .num x => ratCmpNum op x q
          | _ => false)))) ∧
    eval_ast df (.cmpN "!=" (.identN name) (.numberN q)) =
      .ok (.vbools (cells.map (fun c => match c with
        | .num x => decide (x ≠ q)
        | _ => true))) := by
  have hall : ∀ c ∈ cells, c.isNullC || c.isNumC := by
    have := (List.all_eq_true).mp ((Bool.and_eq_true _ _).mp h3).1
    exact fun c hc => this c hc
  have heval : eval_ast df (.identN name) = .ok (.vseries cells false) := by
    rw [eval_ast, h2]
    simp only [h3]
    rfl
  constructor
  · intro op hop
    have hop2 : op = "<" ∨ op = "<=" ∨ op = ">" ∨ op = ">=" ∨ op = "==" := by
      simpa using hop
    rw [eval_ast, heval]
    show pandasCmp op (.vseries cells false) (.vnum q) = _
    rw [pandasCmp]
    simp only [seriesAtoms, scalarAtom]
    have hmap := mapM_ok_of_all (cells.map (cellAtom false))
      (fun a => cmpAtom op a (.anum q))
      (fun a => match a with
        | .anull true => false
        | .anum x => ratCmpNum op x q
        | _ => false)
      (by
        intro a ha
        rcases List.mem_map.mp ha with ⟨c, hc, hca⟩
        have := hall c hc
        cases c with
        | null =>
          rw [← hca]
          exact cmpAtom_nan_num op hop2 q
        | num x =>
          rw [← hca]
          exact cmpAtom_num_num op (by tauto) x q
        | str s => simp [Cell.isNullC, Cell.isNumC] at this)
    rw [hmap]
    simp only [Except.ok.injEq, Value.vbools.injEq, List.map_map]
    refine List.map_congr_left ?_
    intro c hc
    have := hall c hc
    cases c with
    | null => rfl
    | num x => rfl
    | str s => simp [Cell.isNullC, Cell.isNumC] at this
  · rw [eval_ast, heval]
    show pandasCmp "!=" (.vseries cells false) (.vnum q) = _
    rw [pandasCmp]
    simp only [seriesAtoms, scalarAtom]
    have hmap := mapM_ok_of_all (cells.map (cellAtom false))
      (fun a => cmpAtom "!=" a (.anum q))
      (fun a => match a with
        | .anull true => true
        | .anum x => decide (x ≠ q)
        | _ => true)
      (by
        intro a ha
        rcases List.mem_map.mp ha with ⟨c, hc, hca⟩
        have := hall c hc
        cases c with
        | null =>
          rw [← hca]
          rfl
        | num x =>
          rw [← hca]
          rfl
        | str s => simp [Cell.isNullC, Cell.isNumC] at this)
    rw [hmap]
    simp only [Except.ok.injEq, Value.vbools.injEq, List.map_map]
    refine List.map_congr_left ?_
    intro c hc
    have := hall c hc
    cases c with
    | null => rfl
    | num x => rfl
    | str s => simp [Cell.isNullC, Cell.isNumC] at this

/-- C4 counterexample: on `age = [30, null]`, the comparison `age >= 0`
(and the claim's own `and`-expression) evaluates the null row to the
boolean `false` — not to a null that propagates. -/
theorem comparison_with_null_concrete :
    evaluate_row_rule "age >= 0" dfAgeRow = .ok (.bools [true, false]) ∧
    evaluate_row_rule "age >= 0 and age <= 120" dfAgeRow = .ok (.bools [true, false]) :=
  ⟨by with_unfolding_all rfl, by with_unfolding_all rfl⟩

/-- Witness for C4 amended at `age = [30, null]` and the operator `>=`:
the evaluated series is `[true, false]`. -/
theorem comparison_with_null_is_false_witness :
    dfAgeRow.colCells "age" = some [Cell.num 30, Cell.null] ∧
    numericDtypeCol [Cell.num 30, Cell.null] = true ∧
    eval_ast dfAgeRow (.cmpN ">=" (.identN "age") (.numberN 0)) =
      .ok (.vbools ([Cell.num 30, Cell.null].map (fun c => match c with
        | .num x => ratCmpNum ">=" x 0
        | _ => false))) :=
  ⟨by rfl, by rfl,
    (comparison_with_null_is_false dfAgeRow "age" 0 [Cell.num 30, Cell.null]
      (by rfl) (by rfl)).1 ">=" (by simp)⟩

/-! Claim C7: scoring. Each sub-score is the clamped `100·(1 − rate)`;
uniqueness takes the worse of the whole-row and key-group rates; the
total is the weighted mean, and since every sub-score already lies in
[0, 100] the final clamp never bites. -/

/-- A clamped score lies in `[0, 100]`. -/
theorem bounded_mem (x : ℚ) : 0 ≤ bounded x ∧ bounded x ≤ 100 :=
  ⟨le_max_left 0 _, max_le (by norm_num) (min_le_left 100 x)⟩

/-- C7: the five sub-scores equal the clamped `100·(1 − rate)` formulas —
uniqueness over the maximum of the whole-row duplicate rate and the
key-group rate — and the total equals the weighted sum of those
sub-scores divided by the weight sum, for any positive weights. -/
theorem compute_scores_spec (mp ip drp : ℚ) (ckp : Option ℚ) (cip outp : ℚ)
    (w : ScoreWeights) (hc : 0 < w.completeness) (hv : 0 < w.validity)
    (hu : 0 < w.uniqueness) (hs : 0 < w.consistency) (ho : 0 < w.outliers) :
    (compute_scores mp ip drp ckp cip outp (some w)).completeness =
        bounded (100 * (1 - mp)) ∧
    (compute_scores mp ip drp ckp cip outp (some w)).validity =
        bounded (100 * (1 - ip)) ∧
    (compute_scores mp ip drp ckp cip outp (some w)).uniqueness =
        bounded (100 * (1 - max drp (ckp.getD 0))) ∧
    (compute_scores mp ip drp ckp cip outp (some w)).consistency =
        bounded (100 * (1 - cip)) ∧
    (compute_scores mp ip drp ckp cip outp (some w)).outliers =
        bounded (100 * (1 - outp)) ∧
    (compute_scores mp ip drp ckp cip outp (some w)).total =
      (bounded (100 * (1 - mp)) * w.completeness +
        bounded (100 * (1 - ip)) * w.validity +
        bounded (100 * (1 - max drp (ckp.getD 0))) * w.uniqueness +
        bounded (100 * (1 - cip)) * w.consistency +
        bounded (100 * (1 - outp)) * w.outliers) /
      ((w.completeness + w.validity + w.uniqueness + w.consistency + w.outliers : ℤ) : ℚ) := by
  refine ⟨rfl, rfl, rfl, rfl, rfl, ?_⟩
  show bounded _ = _
  set s1 := bounded (100 * (1 - mp)) with hs1
  set s2 := bounded (100 * (1 - ip)) with hs2
  set s3 := bounded (100 * (1 - max drp (ckp.getD 0))) with hs3
  set s4 := bounded (100 * (1 - cip)) with hs4
  set s5 := bounded (100 * (1 - outp)) with hs5
  have hWZ : (0 : ℤ) < w.completeness + w.validity + w.uniqueness + w.consistency + w.outliers := by
    omega
  have hW : (0 : ℚ) <
      ((w.completeness + w.validity + w.uniqueness + w.consistency + w.outliers : ℤ) : ℚ) := by
    exact_mod_cast hWZ
  have hwc : (0 : ℚ) ≤ (w.completeness : ℚ) := by exact_mod_cast hc.le
  have hwv : (0 : ℚ) ≤ (w.validity : ℚ) := by exact_mod_cast hv.le
  have hwu : (0 : ℚ) ≤ (w.uniqueness : ℚ) := by exact_mod_cast hu.le
  have hws : (0 : ℚ) ≤ (w.consistency : ℚ) := by exact_mod_cast hs.le
  have hwo : (0 : ℚ) ≤ (w.outliers : ℚ) := by exact_mod_cast ho.le
  have h1 := bounded_mem (100 * (1 - mp))
  have h2 := bounded_mem (100 * (1 - ip))
  have h3 := bounded_mem (100 * (1 - max drp (ckp.getD 0)))
  have h4 := bounded_mem (100 * (1 - cip))
  have h5 := bounded_mem (100 * (1 - outp))
  rw [← hs1] at h1
  rw [← hs2] at h2
  rw [← hs3] at h3
  rw [← hs4] at h4
  rw [← hs5] at h5
  set num := s1 * (w.completeness : ℚ) + s2 * (w.validity : ℚ) + s3 * (w.uniqueness : ℚ) +
    s4 * (w.consistency : ℚ) + s5 * (w.outliers : ℚ) with hnum
  set W := ((w.completeness + w.validity + w.uniqueness + w.consistency + w.outliers : ℤ) : ℚ)
    with hWdef
  have hnum0 : 0 ≤ num := by
    rw [hnum]
    have := mul_nonneg h1.1 hwc
    have := mul_nonneg h2.1 hwv
    have := mul_nonneg h3.1 hwu
    have := mul_nonneg h4.1 hws
    have := mul_nonneg h5.1 hwo
    linarith
  have hnum100 : num ≤ 100 * W := by
    rw [hnum, hWdef]
    push_cast
    have b1 := mul_le_mul_of_nonneg_right h1.2 hwc
    have b2 := mul_le_mul_of_nonneg_right h2.2 hwv
    have b3 := mul_le_mul_of_nonneg_right h3.2 hwu
    have b4 := mul_le_mul_of_nonneg_right h4.2 hws
    have b5 := mul_le_mul_of_nonneg_right h5.2 hwo
    push_cast at b1 b2 b3 b4 b5
    linarith
  have hX0 : 0 ≤ num / W := div_nonneg hnum0 hW.le
  have hX100 : num / W ≤ 100 := by
    rw [div_le_iff₀ hW]
    linarith
  show bounded (num / W) = num / W
  unfold bounded
  rw [min_eq_right hX100, max_eq_right hX0]

/-- Witness for C7 at the default weights and the rates
`(1/2, 0, 1/4, some 1/3, 2, 1/10)`. -/
theorem compute_scores_spec_witness :
    ((0 : ℤ) < (25 : ℤ) ∧ (0 : ℤ) < (20 : ℤ) ∧ (0 : ℤ) < (10 : ℤ)) ∧
    ((compute_scores (1/2) 0 (1/4) (some (1/3)) 2 (1/10)
        (some ⟨25, 25, 20, 20, 10⟩)).completeness = bounded (100 * (1 - 1/2)) ∧
      (compute_scores (1/2) 0 (1/4) (some (1/3)) 2 (1/10)
        (some ⟨25, 25, 20, 20, 10⟩)).validity = bounded (100 * (1 - 0)) ∧
      (compute_scores (1/2) 0 (1/4) (some (1/3)) 2 (1/10)
        (some ⟨25, 25, 20, 20, 10⟩)).uniqueness =
          bounded (100 * (1 - max (1/4) ((some (1/3) : Option ℚ).getD 0))) ∧
      (compute_scores (1/2) 0 (1/4) (some (1/3)) 2 (1/10)
        (some ⟨25, 25, 20, 20, 10⟩)).consistency = bounded (100 * (1 - 2)) ∧
      (compute_scores (1/2) 0 (1/4) (some (1/3)) 2 (1/10)
        (some ⟨25, 25, 20, 20, 10⟩)).outliers = bounded (100 * (1 - 1/10)) ∧
      (compute_scores (1/2) 0 (1/4) (some (1/3)) 2 (1/10)
        (some ⟨25, 25, 20, 20, 10⟩)).total =
        (bounded (100 * (1 - 1/2)) * (25 : ℤ) + bounded (100 * (1 - 0)) * (25 : ℤ) +
          bounded (100 * (1 - max (1/4) ((some (1/3) : Option ℚ).getD 0))) * (20 : ℤ) +
          bounded (100 * (1 - 2)) * (20 : ℤ) + bounded (100 * (1 - 1/10)) * (10 : ℤ)) /
        (((25 + 25 + 20 + 20 + 10 : ℤ) : ℚ))) :=
  ⟨⟨by decide, by decide, by decide⟩,
    compute_scores_spec (1/2) 0 (1/4) (some (1/3)) 2 (1/10) ⟨25, 25, 20, 20, 10⟩
      (by decide) (by decide) (by decide) (by decide) (by decide)⟩

/-! Claim C6: the IQR fence. Quartiles are linear-interpolation quantiles
over the sorted non-null values; monotonicity of the quantile gives
`Q1 ≤ Q3`, hence `lower ≤ Q1` and `Q3 ≤ upper`; outliers are strictly
outside the fence. -/

/-- A `getD` inside the range ignores its default. -/
theorem getD_default_irrel (l : List ℚ) (a : ℕ) (d : ℚ) (ha : a < l.length) :
    l.getD a d = l.getD a 0 := by
  rw [List.getD_eq_getElem l d ha, List.getD_eq_getElem l 0 ha]

/-- Entries of a sorted list are monotone in the index. -/
theorem sorted_getD_mono (l : List ℚ) (hs : l.Sorted (· ≤ ·)) (a b : ℕ)
    (hab : a ≤ b) (hb : b < l.length) : l.getD a 0 ≤ l.getD b 0 := by
  have ha : a < l.length := lt_of_le_of_lt hab hb
  rw [List.getD_eq_getElem l 0 ha, List.getD_eq_getElem l 0 hb]
  exact hs.rel_get_of_le hab

/-- The linear-interpolation quantile is monotone in the probability on a
sorted list. -/
theorem quantileQ_mono (l : List ℚ) (hs : l.Sorted (· ≤ ·)) (hne : l ≠ [])
    (p q : ℚ) (hp : 0 ≤ p) (hpq : p ≤ q) (hq : q ≤ 1) :
    quantileQ l p ≤ quantileQ l q := by
  have hm : 1 ≤ l.length := List.length_pos.mpr hne
  have hm1 : (0 : ℚ) ≤ (l.length : ℚ) - 1 := by
    have : (1 : ℚ) ≤ (l.length : ℚ) := by exact_mod_cast hm
    linarith
  unfold quantileQ
  dsimp only
  set h1 : ℚ := ((l.length : ℚ) - 1) * p with hh1
  set h2 : ℚ := ((l.length : ℚ) - 1) * q with hh2
  have h10 : 0 ≤ h1 := mul_nonneg hm1 hp
  have h12 : h1 ≤ h2 := mul_le_mul_of_nonneg_left hpq hm1
  have h2top : h2 ≤ (l.length : ℚ) - 1 := by
    calc h2 ≤ ((l.length : ℚ) - 1) * 1 := mul_le_mul_of_nonneg_left hq hm1
      _ = (l.length : ℚ) - 1 := mul_one _
  have h20 : 0 ≤ h2 := h10.trans h12
  have hf10 : (0 : ℤ) ≤ ⌊h1⌋ := Int.floor_nonneg.mpr h10
  have hf20 : (0 : ℤ) ≤ ⌊h2⌋ := Int.floor_nonneg.mpr h20
  set i1 := ⌊h1⌋.toNat with hi1
  set i2 := ⌊h2⌋.toNat with hi2
  have hc1 : ((i1 : ℚ)) = ((⌊h1⌋ : ℤ) : ℚ) := by
    rw [hi1]
    exact_mod_cast Int.toNat_of_nonneg hf10
  have hc2 : ((i2 : ℚ)) = ((⌊h2⌋ : ℤ) : ℚ) := by
    rw [hi2]
    exact_mod_cast Int.toNat_of_nonneg hf20
  have hi12 : i1 ≤ i2 := by
    rw [hi1, hi2]
    exact Int.toNat_le_toNat (Int.floor_le_floor h12)
  have hi2m : i2 < l.length := by
    have hfl : ⌊h2⌋ ≤ (l.length : ℤ) - 1 := by
      calc ⌊h2⌋ ≤ ⌊(((l.length : ℤ) - 1 : ℤ) : ℚ)⌋ :=
            Int.floor_le_floor (by push_cast; linarith)
        _ = (l.length : ℤ) - 1 := Int.floor_intCast _
    omega
  have hfr1a : 0 ≤ h1 - (i1 : ℚ) := by
    rw [hc1]
    exact sub_nonneg.mpr (Int.floor_le h1)
  have hfr1b : h1 - (i1 : ℚ) < 1 := by
    rw [hc1]
    have := Int.lt_floor_add_one h1
    linarith
  have hfr2a : 0 ≤ h2 - (i2 : ℚ) := by
    rw [hc2]
    exact sub_nonneg.mpr (Int.floor_le h2)
  have hi1m : i1 < l.length := lt_of_le_of_lt hi12 hi2m
  have hlohi1 : l.getD i1 0 ≤ l.getD (i1 + 1) (l.getD i1 0) := by
    by_cases hr : i1 + 1 < l.length
    · rw [getD_default_irrel l (i1 + 1) (l.getD i1 0) hr]
      exact sorted_getD_mono l hs i1 (i1 + 1) (Nat.le_succ i1) hr
    · rw [List.getD_eq_default l (l.getD i1 0) (le_of_not_lt hr)]
  have hlohi2 : l.getD i2 0 ≤ l.getD (i2 + 1) (l.getD i2 0) := by
    by_cases hr : i2 + 1 < l.length
    · rw [getD_default_irrel l (i2 + 1) (l.getD i2 0) hr]
      exact sorted_getD_mono l hs i2 (i2 + 1) (Nat.le_succ i2) hr
    · rw [List.getD_eq_default l (l.getD i2 0) (le_of_not_lt hr)]
  rcases lt_or_eq_of_le hi12 with hlt | heq
  · -- distinct buckets: chain through the sorted entries
    have hup : l.getD i1 0 + (h1 - (i1 : ℚ)) * (l.getD (i1 + 1) (l.getD i1 0) - l.getD i1 0) ≤
        l.getD (i1 + 1) (l.getD i1 0) := by
      nlinarith [hfr1a, hfr1b, hlohi1]
    have hr1 : i1 + 1 < l.length := by omega
    have hmid : l.getD (i1 + 1) (l.getD i1 0) ≤ l.getD i2 0 := by
      rw [getD_default_irrel l (i1 + 1) (l.getD i1 0) hr1]
      exact sorted_getD_mono l hs (i1 + 1) i2 (by omega) hi2m
    have hdown : l.getD i2 0 ≤
        l.getD i2 0 + (h2 - (i2 : ℚ)) * (l.getD (i2 + 1) (l.getD i2 0) - l.getD i2 0) := by
      nlinarith [hfr2a, hlohi2]
    linarith
  · -- same bucket: larger fraction along a nonnegative slope
    rw [← heq]
    have hfr12 : h1 - (i1 : ℚ) ≤ h2 - (i1 : ℚ) := by linarith
    nlinarith [hlohi1, hfr12, hfr1a]

/-- C6: for every non-empty list of numeric values, the fence computed by
the outlier check satisfies `lower ≤ Q1 ≤ Q3 ≤ upper`, and a numeric cell
is flagged as an outlier exactly when it lies strictly outside the fence —
a value equal to a fence bound is not an outlier. -/
theorem iqr_fence_spec (vals : List ℚ) (hne : vals ≠ []) :
    (fenceOf vals).lower ≤ (fenceOf vals).q1 ∧
    (fenceOf vals).q1 ≤ (fenceOf vals).q3 ∧
    (fenceOf vals).q3 ≤ (fenceOf vals).upper ∧
    (∀ x : ℚ, isOutlierCell (fenceOf vals) (.num x) =
      (decide (x < (fenceOf vals).lower) || decide ((fenceOf vals).upper < x))) ∧
    isOutlierCell (fenceOf vals) (.num (fenceOf vals).lower) = false ∧
    isOutlierCell (fenceOf vals) (.num (fenceOf vals).upper) = false := by
  have hsort : (sortedQ vals).Sorted (· ≤ ·) := List.sorted_mergeSort' vals
  have hlen : (sortedQ vals).length = vals.length := (List.mergeSort_perm vals _).length_eq
  have hne2 : sortedQ vals ≠ [] := by
    intro h
    apply hne
    have := hlen
    rw [h] at this
    exact List.length_eq_zero.mp this.symm
  have hq13 : quantileQ (sortedQ vals) (1 / 4) ≤ quantileQ (sortedQ vals) (3 / 4) :=
    quantileQ_mono (sortedQ vals) hsort hne2 (1 / 4) (3 / 4)
      (by norm_num) (by norm_num) (by norm_num)
  have hfence : fenceOf vals =
      ⟨quantileQ (sortedQ vals) (1 / 4), quantileQ (sortedQ vals) (3 / 4),
        quantileQ (sortedQ vals) (1 / 4) -
          3 / 2 * (quantileQ (sortedQ vals) (3 / 4) - quantileQ (sortedQ vals) (1 / 4)),
        quantileQ (sortedQ vals) (3 / 4) +
          3 / 2 * (quantileQ (sortedQ vals) (3 / 4) - quantileQ (sortedQ vals) (1 / 4))⟩ := rfl
  rw [hfence]
  simp only
  set q1 := quantileQ (sortedQ vals) (1 / 4)
  set q3 := quantileQ (sortedQ vals) (3 / 4)
  have hlow : q1 - 3 / 2 * (q3 - q1) ≤ q1 := by linarith
  have hupp : q3 ≤ q3 + 3 / 2 * (q3 - q1) := by linarith
  refine ⟨hlow, hq13, hupp, fun x => rfl, ?_, ?_⟩
  · unfold isOutlierCell
    have h1 : ¬(q1 - 3 / 2 * (q3 - q1) < q1 - 3 / 2 * (q3 - q1)) := lt_irrefl _
    have h2 : ¬(q3 + 3 / 2 * (q3 - q1) < q1 - 3 / 2 * (q3 - q1)) := by linarith
    simp [h1, h2]
  · unfold isOutlierCell
    have h1 : ¬(q3 + 3 / 2 * (q3 - q1) < q1 - 3 / 2 * (q3 - q1)) := by linarith
    have h2 : ¬(q3 + 3 / 2 * (q3 - q1) < q3 + 3 / 2 * (q3 - q1)) := lt_irrefl _
    simp [h1, h2]

/-- Witness for C6 at the specification's example column
`[10,12,11,13,500]`: the fence is `[8, 16]` around quartiles 11 and 13,
and the outlier check counts exactly the value 500. -/
theorem iqr_fence_spec_witness :
    (([10, 12, 11, 13, 500] : List ℚ) ≠ [] ∧
      (fenceOf [10, 12, 11, 13, 500]).lower ≤ (fenceOf [10, 12, 11, 13, 500]).q1 ∧
      (fenceOf [10, 12, 11, 13, 500]).q1 ≤ (fenceOf [10, 12, 11, 13, 500]).q3) ∧
    fenceOf [10, 12, 11, 13, 500] = ⟨11, 13, 8, 16⟩ ∧
    (compute_outliers (DF.mk ["amount"]
      [[Cell.num 10], [Cell.num 12], [Cell.num 11], [Cell.num 13], [Cell.num 500]])).1.global.count = 1 ∧
    isOutlierCell (fenceOf [10, 12, 11, 13, 500]) (Cell.num 500) = true ∧
    isOutlierCell (fenceOf [10, 12, 11, 13, 500]) (Cell.num 16) = false :=
  ⟨⟨by decide,
    (iqr_fence_spec [10, 12, 11, 13, 500] (by decide)).1,
    (iqr_fence_spec [10, 12, 11, 13, 500] (by decide)).2.1⟩,
    by with_unfolding_all rfl, by with_unfolding_all rfl,
    by with_unfolding_all rfl, by with_unfolding_all rfl⟩

/-! Claim C2: percentage bounds. Dividing counts by their own
denominators keeps every percentage in [0,1] — except the consistency
check's percentages: the global one divides a sum over all rules by the
row count only once, and a bare-column rule on an int64 column makes
even the per-rule percentage negative, so the consistency bounds are
guarded by the rules evaluating to boolean series or `RulesError`. -/

/-- Length of the series carried by an evaluator value, when any. -/
def valueLen : Value → Option Nat
  | .vseries cells _ => some cells.length
  | .vbools bs => some bs.length
  | _ => none

/-- A named column always has one cell per dataset row. -/
theorem colCells_length (df : DF) (name : String) (cells : List Cell)
    (h : df.colCells name = some cells) : cells.length = df.nRows := by
  unfold DF.colCells at h
  cases hidx : df.names.indexOf? name with
  | none => rw [hidx] at h; exact absurd h (by simp)
  | some i =>
    rw [hidx] at h
    have h2 : some (df.colAt i) = some cells := h
    injection h2 with h3
    rw [← h3]
    exact colAt_length df i

/-- `mapM` into `Except` preserves the length on success. -/
theorem mapM_ok_length {α β : Type} (l : List α) (f : α → Except PyErr β) (ys : List β)
    (h : l.mapM f = .ok ys) : ys.length = l.length := by
  induction l generalizing ys with
  | nil =>
    have h2 : (Except.ok ([] : List β) : Except PyErr (List β)) = .ok ys := h
    injection h2 with h3
    rw [← h3]
    rfl
  | cons a t ih =>
    rw [List.mapM_cons] at h
    cases hfa : f a with
    | error e => rw [hfa] at h; simp [bind, Except.bind] at h
    | ok y =>
      rw [hfa] at h
      cases hrest : t.mapM f with
      | error e =>
        rw [hrest] at h
        simp [bind, Except.bind, pure, Except.pure] at h
      | ok ys1 =>
        rw [hrest] at h
        simp only [bind, Except.bind, pure, Except.pure, Except.ok.injEq] at h
        rw [← h]
        simp [ih ys1 hrest]

/-- `seriesAtoms` reports exactly the carried length. -/
theorem seriesAtoms_len (v : Value) (as : List Atom) (h : seriesAtoms v = some as) :
    valueLen v = some as.length := by
  cases v with
  | vseries cells obj =>
    simp only [seriesAtoms, Option.some.injEq] at h
    simp [valueLen, ← h]
  | vbools bs =>
    simp only [seriesAtoms, Option.some.injEq] at h
    simp [valueLen, ← h]
  | vnum q => simp [seriesAtoms] at h
  | vstr s2 => simp [seriesAtoms] at h
  | vbool b => simp [seriesAtoms] at h

/-- A pandas comparison yields a series whose length comes from its
series operands. -/
theorem pandasCmp_len (op : String) (l r v : Value) (h : pandasCmp op l r = .ok v)
    (n : Nat) (hv : valueLen v = some n) :
    valueLen l = some n ∨ valueLen r = some n ∨
      (∃ n1 n2, valueLen l = some n1 ∧ valueLen r = some n2 ∧ n = min n1 n2) := by
  unfold pandasCmp at h
  cases hl : seriesAtoms l with
  | some las =>
    cases hr : seriesAtoms r with
    | some ras =>
      rw [hl, hr] at h
      dsimp only at h
      cases hmap : (las.zip ras).mapM (fun p => cmpAtom op p.1 p.2) with
      | error e => rw [hmap] at h; exact absurd h (by simp)
      | ok bs =>
        rw [hmap] at h
        simp only [Except.ok.injEq] at h
        rw [← h] at hv
        simp only [valueLen, Option.some.injEq] at hv
        refine Or.inr (Or.inr ⟨las.length, ras.length, seriesAtoms_len l las hl,
          seriesAtoms_len r ras hr, ?_⟩)
        rw [← hv, mapM_ok_length (las.zip ras) _ bs hmap, List.length_zip]
    | none =>
      rw [hl, hr] at h
      dsimp only at h
      cases hsr : scalarAtom r with
      | none => rw [hsr] at h; exact absurd h (by simp)
      | some rb =>
        rw [hsr] at h
        dsimp only at h
        cases hmap : las.mapM (fun a => cmpAtom op a rb) with
        | error e => rw [hmap] at h; exact absurd h (by simp)
        | ok bs =>
          rw [hmap] at h
          simp only [Except.ok.injEq] at h
          rw [← h] at hv
          simp only [valueLen, Option.some.injEq] at hv
          refine Or.inl ?_
          rw [seriesAtoms_len l las hl, ← hv, mapM_ok_length las _ bs hmap]
  | none =>
    cases hr : seriesAtoms r with
    | some ras =>
      rw [hl, hr] at h
      dsimp only at h
      cases hsl : scalarAtom l with
      | none => rw [hsl] at h; exact absurd h (by simp)
      | some lb =>
        rw [hsl] at h
        dsimp only at h
        cases hmap : ras.mapM (fun a => cmpAtom op lb a) with
        | error e => rw [hmap] at h; exact absurd h (by simp)
        | ok bs =>
          rw [hmap] at h
          simp only [Except.ok.injEq] at h
          rw [← h] at hv
          simp only [valueLen, Option.some.injEq] at hv
          refine Or.inr (Or.inl ?_)
          rw [seriesAtoms_len r ras hr, ← hv, mapM_ok_length ras _ bs hmap]
    | none =>
      rw [hl, hr] at h
      dsimp only at h
      cases hsl : scalarAtom l with
      | none => rw [hsl] at h; exact absurd h (by simp)
      | some la =>
        rw [hsl] at h
        cases hsr : scalarAtom r with
        | none => rw [hsr] at h; dsimp only at h; exact absurd h (by simp)
        | some ra =>
          rw [hsr] at h
          dsimp only at h
          cases hc : cmpAtom op la ra with
          | error e => rw [hc] at h; exact absurd h (by simp)
          | ok b =>
            rw [hc] at h
            simp only [Except.ok.injEq] at h
            rw [← h] at hv
            exact absurd hv (by simp [valueLen])

/-- The cell list of an integer series has one cell per integer. -/
theorem zToCells_length (zs : List ℤ) : (zToCells zs).length = zs.length := by
  unfold zToCells
  rw [List.length_map]

/-- The integer contents of an int64 series cover every cell. -/
theorem intCells_length (cells : List Cell) (zs : List ℤ) (h : intCells cells = some zs) :
    zs.length = cells.length := by
  unfold intCells at h
  split at h
  · injection h with h2
    rw [← h2]
    exact List.length_map _ _
  · exact absurd h (by simp)

/-- A pandas boolean operator yields a series whose length comes from its
series operands. -/
theorem pandasBoolOp_len (isAnd : Bool) (l r v : Value) (h : pandasBoolOp isAnd l r = .ok v)
    (n : Nat) (hv : valueLen v = some n) :
    valueLen l = some n ∨ valueLen r = some n ∨
      (∃ n1 n2, valueLen l = some n1 ∧ valueLen r = some n2 ∧ n = min n1 n2) := by
  cases l with
  | vbools a =>
    cases r with
    | vbools b =>
      simp only [pandasBoolOp, Except.ok.injEq] at h
      rw [← h] at hv
      simp only [valueLen, Option.some.injEq] at hv
      refine Or.inr (Or.inr ⟨a.length, b.length, rfl, rfl, ?_⟩)
      rw [← hv]
      exact List.length_zipWith _ _ _
    | vbool b =>
      simp only [pandasBoolOp, Except.ok.injEq] at h
      rw [← h] at hv
      simp only [valueLen, Option.some.injEq] at hv
      exact Or.inl (by simp [valueLen, ← hv])
    | vnum q => simp [pandasBoolOp] at h
    | vstr s2 => simp [pandasBoolOp] at h
    | vseries cells obj =>
      simp only [pandasBoolOp] at h
      cases hic : intCells cells with
      | none => rw [hic] at h; exact absurd h (by simp)
      | some zs =>
        rw [hic] at h
        simp only [Except.ok.injEq] at h
        rw [← h] at hv
        simp only [valueLen, Option.some.injEq] at hv
        refine Or.inr (Or.inr ⟨a.length, cells.length, rfl, rfl, ?_⟩)
        rw [← hv, zToCells_length, List.length_zipWith, intCells_length cells zs hic]
  | vbool a =>
    cases r with
    | vbools b =>
      simp only [pandasBoolOp, Except.ok.injEq] at h
      rw [← h] at hv
      simp only [valueLen, Option.some.injEq] at hv
      exact Or.inr (Or.inl (by simp [valueLen, ← hv]))
    | vbool b =>
      simp only [pandasBoolOp, Except.ok.injEq] at h
      rw [← h] at hv
      simp [valueLen] at hv
    | vnum q => simp [pandasBoolOp] at h
    | vstr s2 => simp [pandasBoolOp] at h
    | vseries cells obj =>
      simp only [pandasBoolOp] at h
      cases hic : intCells cells with
      | none => rw [hic] at h; exact absurd h (by simp)
      | some zs =>
        rw [hic] at h
        simp only [Except.ok.injEq] at h
        rw [← h] at hv
        simp only [valueLen, Option.some.injEq] at hv
        refine Or.inr (Or.inl ?_)
        show valueLen (.vseries cells obj) = some n
        simp only [valueLen, Option.some.injEq]
        rw [← hv, zToCells_length, List.length_map, intCells_length cells zs hic]
  | vnum q => cases r <;> simp [pandasBoolOp] at h
  | vstr s2 => cases r <;> simp [pandasBoolOp] at h
  | vseries cells obj =>
    cases r with
    | vbools b =>
      simp only [pandasBoolOp] at h
      cases hic : intCells cells with
      | none => rw [hic] at h; exact absurd h (by simp)
      | some zs =>
        rw [hic] at h
        simp only [Except.ok.injEq] at h
        rw [← h] at hv
        simp only [valueLen, Option.some.injEq] at hv
        refine Or.inr (Or.inr ⟨cells.length, b.length, rfl, rfl, ?_⟩)
        rw [← hv, zToCells_length, List.length_zipWith, intCells_length cells zs hic]
    | vbool b =>
      simp only [pandasBoolOp] at h
      cases hic : intCells cells with
      | none => rw [hic] at h; exact absurd h (by simp)
      | some zs =>
        rw [hic] at h
        simp only [Except.ok.injEq] at h
        rw [← h] at hv
        simp only [valueLen, Option.some.injEq] at hv
        refine Or.inl ?_
        show valueLen (.vseries cells obj) = some n
        simp only [valueLen, Option.some.injEq]
        rw [← hv, zToCells_length, List.length_map, intCells_length cells zs hic]
    | vnum q => simp [pandasBoolOp] at h
    | vstr s2 => simp [pandasBoolOp] at h
    | vseries c2 o2 =>
      simp only [pandasBoolOp] at h
      cases hic1 : intCells cells with
      | none => rw [hic1] at h; exact absurd h (by simp)
      | some z1 =>
        cases hic2 : intCells c2 with
        | none => rw [hic1, hic2] at h; exact absurd h (by simp)
        | some z2 =>
          rw [hic1, hic2] at h
          simp only [Except.ok.injEq] at h
          rw [← h] at hv
          simp only [valueLen, Option.some.injEq] at hv
          refine Or.inr (Or.inr ⟨cells.length, c2.length, rfl, rfl, ?_⟩)
          rw [← hv, zToCells_length, List.length_zipWith, intCells_length cells z1 hic1,
            intCells_length c2 z2 hic2]

/-- The null-test functions keep the series length. -/
theorem pandasIsNa_len (v : Value) : valueLen (pandasIsNa v) = valueLen v := by
  cases v <;> simp [pandasIsNa, valueLen]

/-- The complement null test keeps the series length. -/
theorem pandasNotNa_len (v : Value) : valueLen (pandasNotNa v) = valueLen v := by
  cases v <;> simp [pandasNotNa, valueLen]

/-- Evaluation produces series of exactly one entry per dataset row. -/
theorem eval_ast_len (df : DF) : ∀ (a : Ast) (v : Value), eval_ast df a = .ok v →
    ∀ n : Nat, valueLen v = some n → n = df.nRows
  | .identN name, v, h, n, hv => by
    unfold eval_ast at h
    cases hcol : df.colCells name with
    | none => rw [hcol] at h; exact absurd h (by simp)
    | some cells =>
      rw [hcol] at h
      simp only [Except.ok.injEq] at h
      rw [← h] at hv
      simp only [valueLen, Option.some.injEq] at hv
      rw [← hv]
      exact colCells_length df name cells hcol
  | .numberN q, v, h, n, hv => by
    unfold eval_ast at h
    simp only [Except.ok.injEq] at h
    rw [← h] at hv
    exact absurd hv (by simp [valueLen])
  | .stringN s2, v, h, n, hv => by
    unfold eval_ast at h
    simp only [Except.ok.injEq] at h
    rw [← h] at hv
    exact absurd hv (by simp [valueLen])
  | .callN f args, v, h, n, hv => by
    unfold eval_ast at h
    split at h
    · exact absurd h (by simp)
    · cases args with
      | nil => exact absurd h (by simp)
      | cons a rest =>
        cases rest with
        | cons b rest2 => exact absurd h (by simp)
        | nil =>
          dsimp only at h
          cases ha : eval_ast df a with
          | error e => rw [ha] at h; exact absurd h (by simp)
          | ok v1 =>
            rw [ha] at h
            dsimp only at h
            split at h
            · injection h with h2
              rw [← h2] at hv
              rw [pandasIsNa_len v1] at hv
              exact eval_ast_len df a v1 ha n hv
            · injection h with h2
              rw [← h2] at hv
              rw [pandasNotNa_len v1] at hv
              exact eval_ast_len df a v1 ha n hv
  | .cmpN op l r, v, h, n, hv => by
    unfold eval_ast at h
    cases hl : eval_ast df l with
    | error e => rw [hl] at h; exact absurd h (by simp)
    | ok lv =>
      rw [hl] at h
      cases hr : eval_ast df r with
      | error e => rw [hr] at h; exact absurd h (by simp)
      | ok rv =>
        rw [hr] at h
        rcases pandasCmp_len op lv rv v h n hv with hc | hc | ⟨n1, n2, hc1, hc2, hc3⟩
        · exact eval_ast_len df l lv hl n hc
        · exact eval_ast_len df r rv hr n hc
        · have e1 := eval_ast_len df l lv hl n1 hc1
          have e2 := eval_ast_len df r rv hr n2 hc2
          rw [hc3, e1, e2]
          exact min_self _
  | .andN l r, v, h, n, hv => by
    unfold eval_ast at h
    cases hl : eval_ast df l with
    | error e => rw [hl] at h; exact absurd h (by simp)
    | ok lv =>
      rw [hl] at h
      cases hr : eval_ast df r with
      | error e => rw [hr] at h; exact absurd h (by simp)
      | ok rv =>
        rw [hr] at h
        rcases pandasBoolOp_len true lv rv v h n hv with hc | hc | ⟨n1, n2, hc1, hc2, hc3⟩
        · exact eval_ast_len df l lv hl n hc
        · exact eval_ast_len df r rv hr n hc
        · have e1 := eval_ast_len df l lv hl n1 hc1
          have e2 := eval_ast_len df r rv hr n2 hc2
          rw [hc3, e1, e2]
          exact min_self _
  | .orN l r, v, h, n, hv => by
    unfold eval_ast at h
    cases hl : eval_ast df l with
    | error e => rw [hl] at h; exact absurd h (by simp)
    | ok lv =>
      rw [hl] at h
      cases hr : eval_ast df r with
      | error e => rw [hr] at h; exact absurd h (by simp)
      | ok rv =>
        rw [hr] at h
        rcases pandasBoolOp_len false lv rv v h n hv with hc | hc | ⟨n1, n2, hc1, hc2, hc3⟩
        · exact eval_ast_len df l lv hl n hc
        · exact eval_ast_len df r rv hr n hc
        · have e1 := eval_ast_len df l lv hl n1 hc1
          have e2 := eval_ast_len df r rv hr n2 hc2
          rw [hc3, e1, e2]
          exact min_self _

/-- A successful boolean row-rule evaluation has one entry per row. -/
theorem evaluate_row_rule_len (expr : String) (df : DF) (bs : List Bool)
    (h : evaluate_row_rule expr df = .ok (.bools bs)) : bs.length = df.nRows := by
  unfold evaluate_row_rule at h
  cases hp : parse_expression expr with
  | error e => rw [hp] at h; exact absurd h (by simp)
  | ok ast =>
    rw [hp] at h
    dsimp only at h
    cases he : eval_ast df ast with
    | error e => rw [he] at h; exact absurd h (by simp)
    | ok v =>
      rw [he] at h
      dsimp only at h
      cases v with
      | vseries cells obj => exact absurd h (by simp)
      | vbools bs2 =>
        simp only [Except.ok.injEq, RowSeries.bools.injEq] at h
        rw [← h]
        exact eval_ast_len df ast (.vbools bs2) he bs2.length (by simp [valueLen])
      | vbool b =>
        simp only [Except.ok.injEq, RowSeries.bools.injEq] at h
        rw [← h]
        exact List.length_replicate _ _
      | vnum q =>
        simp only [Except.ok.injEq, RowSeries.bools.injEq] at h
        rw [← h]
        exact List.length_replicate _ _
      | vstr s2 =>
        simp only [Except.ok.injEq, RowSeries.bools.injEq] at h
        rw [← h]
        exact List.length_replicate _ _

/-- The guarded percentage is bounded by `k` when the count is at most
`k` times the total. -/
theorem pctOf_le_cast (a b k : Nat) (h : a ≤ k * b) : pctOf a b ≤ (k : ℚ) := by
  unfold pctOf
  split
  · positivity
  · next hb =>
    rw [div_le_iff₀ (by positivity)]
    calc (a : ℚ) ≤ ((k * b : ℕ) : ℚ) := by exact_mod_cast h
      _ = (k : ℚ) * (b : ℚ) := by push_cast; ring

/-- Bounds of one consistency rule step whose evaluation outcome is
recoverable: the invalid count lies in `[0, rows]` and the per-rule
percentage lies in `[0, 1]`.  (A raw int64 result — ruled out by the
hypothesis — escapes both bounds.) -/
theorem consRule_bounds (df : DF) (rule : RowRule)
    (hrec : recoverableEval (evaluate_row_rule rule.expr df) = true)
    (entry : Option (String × RuleMetric))
    (cnt : ℤ) (iss : List Issue) (h : consRule df rule = .ok (entry, cnt, iss)) :
    (0 ≤ cnt ∧ cnt ≤ (df.nRows : ℤ)) ∧ ∀ e : String × RuleMetric, entry = some e →
      0 ≤ e.2.invalid_pct ∧ e.2.invalid_pct ≤ 1 := by
  unfold consRule at h
  cases hev : evaluate_row_rule rule.expr df with
  | error e =>
    cases e with
    | rulesError msg =>
      rw [hev] at h
      simp only [Except.ok.injEq, Prod.mk.injEq] at h
      obtain ⟨hentry, hcnt, -⟩ := h
      constructor
      · rw [← hcnt]; exact ⟨le_refl 0, Int.natCast_nonneg _⟩
      · intro e he
        rw [← hentry] at he
        injection he with he2
        rw [← he2]
        exact ⟨le_refl 0, zero_le_one⟩
    | typeError msg => rw [hev] at h; exact absurd h (by simp)
    | indexError msg => rw [hev] at h; exact absurd h (by simp)
    | valueError msg => rw [hev] at h; exact absurd h (by simp)
    | reError msg => rw [hev] at h; exact absurd h (by simp)
  | ok rs =>
    cases rs with
    | raw cells obj =>
      rw [hev] at hrec
      exact absurd hrec (by simp [recoverableEval])
    | bools bs =>
      rw [hev] at h
      simp only [Except.ok.injEq, Prod.mk.injEq] at h
      obtain ⟨hentry, hcnt, -⟩ := h
      have hbn : bs.length = df.nRows := evaluate_row_rule_len rule.expr df bs hev
      have hcount : countTrue (bs.map (fun b => !b)) ≤ df.nRows := by
        calc countTrue (bs.map (fun b => !b)) ≤ (bs.map (fun b => !b)).length :=
              countTrue_le_length _
          _ = bs.length := List.length_map _ _
          _ = df.nRows := hbn
      constructor
      · rw [← hcnt]
        exact ⟨Int.natCast_nonneg _, by exact_mod_cast hcount⟩
      · intro e he
        rw [← hentry] at he
        injection he with he2
        rw [← he2]
        exact ⟨pctOf_nonneg _ _, pctOf_le_one _ _ hcount⟩

/-- Bounds over the consistency rule loop, when every rule's evaluation
outcome is recoverable: the invalid total lies in `[0, rules·rows]` and
every per-rule percentage lies in `[0, 1]`. -/
theorem consLoop_bounds (df : DF) (rrs : List RowRule)
    (hrec : ∀ rule ∈ rrs, recoverableEval (evaluate_row_rule rule.expr df) = true)
    (entries : List (String × RuleMetric)) (total : ℤ) (iss : List Issue)
    (h : consLoop df rrs = .ok (entries, total, iss)) :
    (0 ≤ total ∧ total ≤ ((rrs.length * df.nRows : ℕ) : ℤ)) ∧
      ∀ e ∈ entries, 0 ≤ e.2.invalid_pct ∧ e.2.invalid_pct ≤ 1 := by
  induction rrs generalizing entries total iss with
  | nil =>
    simp only [consLoop, Except.ok.injEq, Prod.mk.injEq] at h
    obtain ⟨hentries, htotal, -⟩ := h
    refine ⟨by rw [← htotal]; simp, ?_⟩
    intro e he
    rw [← hentries] at he
    exact absurd he (List.not_mem_nil e)
  | cons rule rest ih =>
    rw [consLoop] at h
    cases h1 : consRule df rule with
    | error e => rw [h1] at h; exact absurd h (by simp)
    | ok v1 =>
      obtain ⟨entry1, cnt1, iss1⟩ := v1
      cases h2 : consLoop df rest with
      | error e => rw [h1, h2] at h; exact absurd h (by simp)
      | ok v2 =>
        obtain ⟨entries2, total2, iss2⟩ := v2
        rw [h1, h2] at h
        simp only [Except.ok.injEq, Prod.mk.injEq] at h
        obtain ⟨hentries, htotal, -⟩ := h
        obtain ⟨hc1, hp1⟩ := consRule_bounds df rule (hrec rule (by simp)) entry1 cnt1 iss1 h1
        obtain ⟨hc2, hp2⟩ := ih (fun r hr => hrec r (by simp [hr])) entries2 total2 iss2 h2
        constructor
        · rw [← htotal]
          simp only [List.length_cons]
          constructor
          · exact add_nonneg hc1.1 hc2.1
          · calc cnt1 + total2 ≤ (df.nRows : ℤ) + ((rest.length * df.nRows : ℕ) : ℤ) :=
                  add_le_add hc1.2 hc2.2
              _ = (((rest.length + 1) * df.nRows : ℕ) : ℤ) := by push_cast; ring
        · intro e he
          rw [← hentries] at he
          rcases List.mem_append.mp he with he1 | he2
          · cases entry1 with
            | none => exact absurd he1 (List.not_mem_nil e)
            | some e1 =>
              simp only [Option.toList_some, List.mem_singleton] at he1
              rw [he1]
              exact hp1 e1 rfl
          · exact hp2 e he2

/-- The null count of a column never exceeds the row count. -/
theorem countNull_le_nRows (df : DF) (i : Nat) : countNull (df.colAt i) ≤ df.nRows := by
  calc countNull (df.colAt i) ≤ (df.colAt i).length := List.countP_le_length _
    _ = df.nRows := colAt_length df i

/-- Completeness percentages lie in `[0, 1]`. -/
theorem completeness_pct_bounds (df : DF) :
    (0 ≤ (compute_completeness df).1.global.pct ∧
      (compute_completeness df).1.global.pct ≤ 1) ∧
    ∀ e ∈ (compute_completeness df).1.columns, 0 ≤ e.2.pct ∧ e.2.pct ≤ 1 := by
  constructor
  · constructor
    · exact pctOf_nonneg _ _
    · refine pctOf_le_one _ _ ?_
      calc ((List.range df.names.length).map (fun i => countNull (df.colAt i))).sum ≤
            (List.range df.names.length).length * df.nRows :=
              sum_le_card_mul _ _ _ (fun i _ => countNull_le_nRows df i)
        _ = df.names.length * df.nRows := by rw [List.length_range]
        _ = df.nRows * df.names.length := Nat.mul_comm _ _
  · intro e he
    simp only [compute_completeness] at he
    rcases List.mem_map.mp he with ⟨i, -, hi⟩
    rw [← hi]
    exact ⟨pctOf_nonneg _ _, pctOf_le_one _ _ (countNull_le_nRows df i)⟩

/-- Duplicate flags cover exactly the rows. -/
theorem dupFlagsAux_length {α : Type} [DecidableEq α] (seen rows : List α) :
    (dupFlagsAux seen rows).length = rows.length := by
  induction rows generalizing seen with
  | nil => rfl
  | cons r rest ih => simp [dupFlagsAux, ih]

/-- Duplicate flags cover exactly the rows. -/
theorem dupFlags_length {α : Type} [DecidableEq α] (rows : List α) :
    (dupFlags rows).length = rows.length := dupFlagsAux_length [] rows

/-- Key-group percentages reported by a non-raising `handle_key` pass lie
in `[0, 1]`. -/
theorem handle_key_pct_bounds (df : DF) (keyCols : List String) (label : String)
    (r : List (String × KeyMetric) × List Issue) (h : handle_key df keyCols label = .ok r) :
    ∀ e ∈ r.1, 0 ≤ e.2.pct ∧ e.2.pct ≤ 1 := by
  unfold handle_key at h
  by_cases hm : keyCols.filter (fun c => !(df.names.contains c)) ≠ []
  · rw [if_pos hm] at h
    injection h with h2
    subst h2
    intro e he
    exact absurd he (List.not_mem_nil e)
  · rw [if_neg hm] at h
    by_cases he2 : (keyCols.isEmpty && !pdEmpty df) = true
    · rw [if_pos he2] at h
      exact absurd h (by simp)
    · rw [if_neg he2] at h
      have hd : countTrue (dupFlags (projectRows df keyCols)) ≤ df.nRows := by
        calc countTrue (dupFlags (projectRows df keyCols)) ≤
              (dupFlags (projectRows df keyCols)).length := countTrue_le_length _
          _ = (projectRows df keyCols).length := dupFlags_length _
          _ = df.nRows := by simp [projectRows, DF.nRows]
      by_cases hz : countTrue (dupFlags (projectRows df keyCols)) ≠ 0
      · rw [if_pos hz] at h
        injection h with h2
        subst h2
        intro e he
        simp only [List.mem_singleton] at he
        rw [he]
        exact ⟨pctOf_nonneg _ _, pctOf_le_one _ _ hd⟩
      · rw [if_neg hz] at h
        injection h with h2
        subst h2
        intro e he
        simp only [List.mem_singleton] at he
        rw [he]
        exact ⟨pctOf_nonneg _ _, pctOf_le_one _ _ hd⟩

/-- Key-group percentages of the id-column pass lie in `[0, 1]`. -/
theorem idPartOf_pct_bounds (df : DF) (ic : Option (List String))
    (r : List (String × KeyMetric) × List Issue) (h : idPartOf df ic = .ok r) :
    ∀ e ∈ r.1, 0 ≤ e.2.pct ∧ e.2.pct ≤ 1 := by
  rcases ic with _ | ics
  · unfold idPartOf at h
    injection h with h2
    subst h2
    intro e he
    exact absurd he (List.not_mem_nil e)
  · unfold idPartOf at h
    dsimp only at h
    by_cases hemp : ics.isEmpty
    · rw [if_pos hemp] at h
      injection h with h2
      subst h2
      intro e he
      exact absurd he (List.not_mem_nil e)
    · rw [if_neg hemp] at h
      exact handle_key_pct_bounds df ics "id_cols" r h

/-- Key-group percentages of the unique-key loop lie in `[0, 1]`. -/
theorem ukLoop_pct_bounds (df : DF) (gs : List (List String)) :
    ∀ (n : Nat) (r : List (String × KeyMetric) × List Issue),
      ukLoop df n gs = .ok r → ∀ e ∈ r.1, 0 ≤ e.2.pct ∧ e.2.pct ≤ 1 := by
  induction gs with
  | nil =>
    intro n r h
    injection h with h2
    subst h2
    intro e he
    exact absurd he (List.not_mem_nil e)
  | cons g rest ih =>
    intro n r h
    rw [ukLoop] at h
    cases h1 : handle_key df g ("unique_key_" ++ toString n) with
    | error e => rw [h1] at h; exact absurd h (by simp)
    | ok r1 =>
      cases h2 : ukLoop df (n + 1) rest with
      | error e => rw [h1, h2] at h; exact absurd h (by simp)
      | ok r2 =>
        rw [h1, h2] at h
        injection h with h3
        subst h3
        intro e he
        rcases List.mem_append.mp he with h1m | h2m
        · exact handle_key_pct_bounds df g _ r1 h1 e h1m
        · exact ih (n + 1) r2 h2 e h2m

/-- Key-group percentages of the unique-key pass lie in `[0, 1]`. -/
theorem ukPartOf_pct_bounds (df : DF) (uk : Option (List (List String)))
    (r : List (String × KeyMetric) × List Issue) (h : ukPartOf df uk = .ok r) :
    ∀ e ∈ r.1, 0 ≤ e.2.pct ∧ e.2.pct ≤ 1 := by
  rcases uk with _ | uks
  · unfold ukPartOf at h
    injection h with h2
    subst h2
    intro e he
    exact absurd he (List.not_mem_nil e)
  · unfold ukPartOf at h
    exact ukLoop_pct_bounds df uks 1 r h

/-- Percentages of a uniqueness run that did not raise lie in `[0, 1]`. -/
theorem uniqueness_pct_bounds (df : DF) (ic : Option (List String))
    (uk : Option (List (List String))) (y : UniquenessMetrics × List Issue)
    (h : compute_uniqueness df ic uk = .ok y) :
    (0 ≤ y.1.duplicate_rows_pct ∧ y.1.duplicate_rows_pct ≤ 1) ∧
    ∀ e ∈ y.1.duplicates_on_key, 0 ≤ e.2.pct ∧ e.2.pct ≤ 1 := by
  unfold compute_uniqueness at h
  cases hid : idPartOf df ic with
  | error e => rw [hid] at h; exact absurd h (by simp)
  | ok idPart =>
    cases huk : ukPartOf df uk with
    | error e => rw [hid, huk] at h; exact absurd h (by simp)
    | ok ukPart =>
      rw [hid, huk] at h
      injection h with h2
      subst h2
      constructor
      · constructor
        · exact pctOf_nonneg _ _
        · refine pctOf_le_one _ _ ?_
          calc countTrue (dupFlags df.rows) ≤ (dupFlags df.rows).length :=
                countTrue_le_length _
            _ = df.rows.length := dupFlags_length _
      · intro e he
        rcases List.mem_append.mp he with hidm | hukm
        · exact idPartOf_pct_bounds df ic idPart hid e hidm
        · exact ukPartOf_pct_bounds df uk ukPart huk e hukm

/-- The type-mismatch mask covers every cell once. -/
theorem invalidByType_length (p : Prims) (cells : List Cell) (ty : String) :
    (invalidByType p cells ty).length = cells.length := by
  unfold invalidByType
  repeat' split
  all_goals simp

/-- A validity merge step keeps the mask length. -/
theorem vStep_fst_length (acc : List Bool × List Issue) (active : Bool) (m : List Bool)
    (ty : String) (cols : List String) (exs : List String) (n : Nat)
    (h1 : acc.1.length = n) (h2 : m.length = n) :
    (vStep acc active m ty cols exs).1.length = n := by
  unfold vStep
  split
  · simp [orMask, List.length_zipWith, h1, h2]
  · exact h1

/-- The column invalid mask of the validity check has one entry per
cell. -/
theorem validityColOk_mask_length (p : Prims) (name : String) (cells : List Cell)
    (rc : Option ColumnRule) :
    (validityColOk p name cells rc).1.length = cells.length := by
  unfold validityColOk
  apply vStep_fst_length
  · apply vStep_fst_length
    · apply vStep_fst_length
      · apply vStep_fst_length
        · apply vStep_fst_length
          · apply vStep_fst_length
            · apply vStep_fst_length
              · simp
              · simp
            · exact invalidByType_length p cells _
          · simp
        · simp
      · simp
    · simp
  · simp

/-- Every entry the validity loop produces is the mask count of the
corresponding column of the error-free path. -/
theorem validityLoop_mem (p : Prims) (df : DF) (rules : Option Rules)
    (l : List Nat) (ds : List (String × Nat × List Issue))
    (h : validityLoop p df rules l = .ok ds) :
    ∀ d ∈ ds, ∃ i, d.2.1 = countTrue (validityColOk p (df.names.getD i "") (df.colAt i)
      (rules.bind (fun rs => lookupS rs.columns (df.names.getD i "")))).1 := by
  induction l generalizing ds with
  | nil =>
    injection h with h2
    subst h2
    intro d hd
    exact absurd hd (List.not_mem_nil d)
  | cons i rest ih =>
    rw [validityLoop] at h
    cases h1 : validityColE p (df.names.getD i "") (df.colAt i)
        (rules.bind (fun rs => lookupS rs.columns (df.names.getD i ""))) with
    | error e => rw [h1] at h; exact absurd h (by simp)
    | ok r =>
      cases h2 : validityLoop p df rules rest with
      | error e => rw [h1, h2] at h; exact absurd h (by simp)
      | ok ds2 =>
        rw [h1, h2] at h
        injection h with h3
        subst h3
        intro d hd
        rcases List.mem_cons.mp hd with hd1 | hd2
        · refine ⟨i, ?_⟩
          have hr : r = validityColOk p (df.names.getD i "") (df.colAt i)
              (rules.bind (fun rs => lookupS rs.columns (df.names.getD i ""))) := by
            unfold validityColE at h1
            cases herr : validityColErr p
                (rules.bind (fun rs => lookupS rs.columns (df.names.getD i ""))) with
            | some e => rw [herr] at h1; exact absurd h1 (by simp)
            | none =>
              rw [herr] at h1
              injection h1 with h4
              exact h4.symm
          rw [hd1, hr]
        · exact ih ds2 h2 d hd2

/-- The validity loop yields one entry per processed column index. -/
theorem validityLoop_length (p : Prims) (df : DF) (rules : Option Rules)
    (l : List Nat) (ds : List (String × Nat × List Issue))
    (h : validityLoop p df rules l = .ok ds) : ds.length = l.length := by
  induction l generalizing ds with
  | nil =>
    injection h with h2
    subst h2
    rfl
  | cons i rest ih =>
    rw [validityLoop] at h
    cases h1 : validityColE p (df.names.getD i "") (df.colAt i)
        (rules.bind (fun rs => lookupS rs.columns (df.names.getD i ""))) with
    | error e => rw [h1] at h; exact absurd h (by simp)
    | ok r =>
      cases h2 : validityLoop p df rules rest with
      | error e => rw [h1, h2] at h; exact absurd h (by simp)
      | ok ds2 =>
        rw [h1, h2] at h
        injection h with h3
        subst h3
        simp [ih ds2 h2]

/-- Percentages of a validity run that did not raise lie in `[0, 1]`. -/
theorem validity_pct_bounds (p : Prims) (df : DF) (rules : Option Rules)
    (inferred : List (String × String)) (y : ValidityMetrics × List Issue)
    (h : compute_validity p df rules inferred = .ok y) :
    (0 ≤ y.1.global.pct ∧ y.1.global.pct ≤ 1) ∧
    ∀ e ∈ y.1.columns, 0 ≤ e.2.invalid_pct ∧ e.2.invalid_pct ≤ 1 := by
  unfold compute_validity at h
  cases hl : validityLoop p df rules (List.range df.names.length) with
  | error e => rw [hl] at h; exact absurd h (by simp)
  | ok perCol =>
    rw [hl] at h
    injection h with h2
    subst h2
    have hcol : ∀ d ∈ perCol, d.2.1 ≤ df.nRows := by
      intro d hd
      rcases validityLoop_mem p df rules _ perCol hl d hd with ⟨i, hdi⟩
      rw [hdi]
      calc countTrue (validityColOk p (df.names.getD i "") (df.colAt i) _).1 ≤
            (validityColOk p (df.names.getD i "") (df.colAt i) _).1.length :=
              countTrue_le_length _
        _ = (df.colAt i).length := validityColOk_mask_length p _ _ _
        _ = df.nRows := colAt_length df i
    constructor
    · constructor
      · exact pctOf_nonneg _ _
      · refine pctOf_le_one _ _ ?_
        calc (perCol.map (fun d => d.2.1)).sum ≤ perCol.length * df.nRows :=
              sum_le_card_mul _ _ _ hcol
          _ = df.names.length * df.nRows := by
              rw [validityLoop_length p df rules _ perCol hl, List.length_range]
          _ = df.nRows * df.names.length := Nat.mul_comm _ _
    · intro e he
      rcases List.mem_map.mp he with ⟨d, hd, hdi⟩
      rw [← hdi]
      exact ⟨pctOf_nonneg _ _, pctOf_le_one _ _ (hcol d hd)⟩

/-- The non-null numeric values are exactly the numeric cells. -/
theorem numericVals_length (cells : List Cell) :
    (numericVals cells).length = cells.countP Cell.isNumC := by
  induction cells with
  | nil => rfl
  | cons c t ih =>
    cases c <;> simp [numericVals, List.filterMap_cons, List.countP_cons, Cell.isNumC] <;>
      simpa [numericVals] using ih

/-- Every counted column of the outlier pass has no more outliers than
numeric values. -/
theorem outColData_bounds (df : DF) :
    ∀ d ∈ outColData df, d.outCount ≤ d.numCount := by
  intro d hd
  rw [outColData] at hd
  rcases List.mem_filterMap.mp hd with ⟨i, -, hi⟩
  split at hi
  · exact absurd hi (by simp)
  · split at hi
    · exact absurd hi (by simp)
    · injection hi with hi2
      rw [← hi2]
      show (df.colAt i).countP (isOutlierCell _) ≤ (numericVals (df.colAt i)).length
      rw [numericVals_length]
      refine List.countP_mono_left ?_
      intro c _ hc
      cases c with
      | num q => rfl
      | null => exact absurd hc (by simp [isOutlierCell])
      | str s2 => exact absurd hc (by simp [isOutlierCell])

/-- Outlier percentages lie in `[0, 1]`. -/
theorem outliers_pct_bounds (df : DF) :
    (0 ≤ (compute_outliers df).1.global.pct ∧ (compute_outliers df).1.global.pct ≤ 1) ∧
    ∀ e ∈ (compute_outliers df).1.columns, 0 ≤ e.2.pct ∧ e.2.pct ≤ 1 := by
  constructor
  · constructor
    · exact pctOf_nonneg _ _
    · refine pctOf_le_one _ _ ?_
      exact List.sum_le_sum (fun d hd => outColData_bounds df d hd)
  · intro e he
    simp only [compute_outliers] at he
    rcases List.mem_map.mp he with ⟨d, hd, hdi⟩
    rw [← hdi]
    exact ⟨pctOf_nonneg _ _, pctOf_le_one _ _ (outColData_bounds df d hd)⟩

/-- The consistency loop produces exactly one metrics entry per rule. -/
theorem consLoop_entries_length (df : DF) (rrs : List RowRule)
    (entries : List (String × RuleMetric)) (total : ℤ) (iss : List Issue)
    (h : consLoop df rrs = .ok (entries, total, iss)) :
    entries.length = rrs.length := by
  induction rrs generalizing entries total iss with
  | nil =>
    simp only [consLoop, Except.ok.injEq, Prod.mk.injEq] at h
    rw [← h.1]
    rfl
  | cons rule rest ih =>
    rw [consLoop] at h
    cases h1 : consRule df rule with
    | error e => rw [h1] at h; exact absurd h (by simp)
    | ok v1 =>
      obtain ⟨entry1, cnt1, iss1⟩ := v1
      cases h2 : consLoop df rest with
      | error e => rw [h1, h2] at h; exact absurd h (by simp)
      | ok v2 =>
        obtain ⟨entries2, total2, iss2⟩ := v2
        rw [h1, h2] at h
        simp only [Except.ok.injEq, Prod.mk.injEq] at h
        obtain ⟨he, -, -⟩ := h
        have hone : entry1.toList.length = 1 := by
          unfold consRule at h1
          cases hev : evaluate_row_rule rule.expr df with
          | error e =>
            cases e with
            | rulesError msg =>
              rw [hev] at h1
              simp only [Except.ok.injEq, Prod.mk.injEq] at h1
              rw [← h1.1]
              rfl
            | typeError msg => rw [hev] at h1; exact absurd h1 (by simp)
            | indexError msg => rw [hev] at h1; exact absurd h1 (by simp)
            | valueError msg => rw [hev] at h1; exact absurd h1 (by simp)
            | reError msg => rw [hev] at h1; exact absurd h1 (by simp)
          | ok rs2 =>
            cases rs2 with
            | raw cells obj =>
              rw [hev] at h1
              dsimp only at h1
              cases hic : intCells cells with
              | none => rw [hic] at h1; exact absurd h1 (by simp)
              | some zs =>
                rw [hic] at h1
                dsimp only at h1
                by_cases hs : (zs.map (fun z => -1 - z)).sum ≠ 0
                · rw [if_pos hs] at h1
                  by_cases hb : ((zs.map (fun z => -1 - z)).all
                      (fun m => decide (-(df.nRows : ℤ) ≤ m) &&
                        decide (m < (df.nRows : ℤ)))) = true
                  · rw [if_pos hb] at h1
                    simp only [Except.ok.injEq, Prod.mk.injEq] at h1
                    rw [← h1.1]
                    rfl
                  · rw [if_neg hb] at h1
                    exact absurd h1 (by simp)
                · rw [if_neg hs] at h1
                  simp only [Except.ok.injEq, Prod.mk.injEq] at h1
                  rw [← h1.1]
                  rfl
            | bools bs =>
              rw [hev] at h1
              simp only [Except.ok.injEq, Prod.mk.injEq] at h1
              rw [← h1.1]
              rfl
        rw [← he, List.length_append, hone, ih entries2 total2 iss2 h2, List.length_cons]
        omega

/-- C2 amended: completeness and outlier percentages (global and per
column) always lie in `[0, 1]`; validity and uniqueness percentages lie
in `[0, 1]` whenever the run returns at all; and whenever every row
rule's evaluation outcome is a boolean series or a `RulesError`, the
per-rule consistency percentages lie in `[0, 1]` while the global
consistency percentage — which divides the summed per-rule invalid
counts by the row count just once — is only bounded by the number of row
rules.  Without that guard even nonnegativity fails: a bare-column rule
on an int64 column yields the global (and per-rule) percentage −1. -/
theorem percentage_bounds :
    (∀ df : DF,
      (0 ≤ (compute_completeness df).1.global.pct ∧
        (compute_completeness df).1.global.pct ≤ 1) ∧
      ∀ e ∈ (compute_completeness df).1.columns, 0 ≤ e.2.pct ∧ e.2.pct ≤ 1) ∧
    (∀ (p : Prims) (df : DF) (rules : Option Rules) (inferred : List (String × String))
      (y : ValidityMetrics × List Issue), compute_validity p df rules inferred = .ok y →
      (0 ≤ y.1.global.pct ∧ y.1.global.pct ≤ 1) ∧
      ∀ e ∈ y.1.columns, 0 ≤ e.2.invalid_pct ∧ e.2.invalid_pct ≤ 1) ∧
    (∀ (df : DF) (ic : Option (List String)) (uk : Option (List (List String)))
      (y : UniquenessMetrics × List Issue), compute_uniqueness df ic uk = .ok y →
      (0 ≤ y.1.duplicate_rows_pct ∧ y.1.duplicate_rows_pct ≤ 1) ∧
      ∀ e ∈ y.1.duplicates_on_key, 0 ≤ e.2.pct ∧ e.2.pct ≤ 1) ∧
    (∀ df : DF,
      (0 ≤ (compute_outliers df).1.global.pct ∧ (compute_outliers df).1.global.pct ≤ 1) ∧
      ∀ e ∈ (compute_outliers df).1.columns, 0 ≤ e.2.pct ∧ e.2.pct ≤ 1) ∧
    (∀ (df : DF) (rules : Option Rules) (m : ConsistencyMetrics) (iss : List Issue),
      (∀ rule ∈ rowRulesOf rules,
        recoverableEval (evaluate_row_rule rule.expr df) = true) →
      compute_consistency df rules = .ok (m, iss) →
      (∀ e ∈ m.rules, 0 ≤ e.2.invalid_pct ∧ e.2.invalid_pct ≤ 1) ∧
      0 ≤ m.global.pct ∧ m.global.pct ≤ (m.rules.length : ℚ)) ∧
    (consGlobalPct (compute_consistency dfIntAge (some rulesBareAge)) =
        some (pctZ (-2) 2) ∧ pctZ (-2) 2 < 0) := by
  refine ⟨completeness_pct_bounds, validity_pct_bounds, uniqueness_pct_bounds,
    outliers_pct_bounds, ?_, by with_unfolding_all rfl, by norm_num [pctZ]⟩
  intro df rules m iss hrec h
  unfold compute_consistency at h
  rcases rules with _ | rs
  all_goals dsimp only at h
  · injection h with h
    injection h with h1 h2
    rw [← h1]
    exact ⟨fun e he => absurd he (List.not_mem_nil e), le_refl 0, by simp⟩
  · by_cases hemp : rs.row_rules.isEmpty
    · rw [if_pos hemp] at h
      injection h with h
      injection h with h1 h2
      rw [← h1]
      exact ⟨fun e he => absurd he (List.not_mem_nil e), le_refl 0, by simp⟩
    · rw [if_neg hemp] at h
      cases hl : consLoop df rs.row_rules with
      | error e => rw [hl] at h; exact absurd h (by simp)
      | ok v =>
        obtain ⟨entries, total, iss0⟩ := v
        rw [hl] at h
        simp only [Except.ok.injEq, Prod.mk.injEq] at h
        obtain ⟨hm, -⟩ := h
        obtain ⟨htot, hper⟩ := consLoop_bounds df rs.row_rules hrec entries total iss0 hl
        have hlen : entries.length = rs.row_rules.length :=
          consLoop_entries_length df rs.row_rules entries total iss0 hl
        rw [← hm]
        refine ⟨hper, pctZ_nonneg _ _ htot.1, ?_⟩
        show pctZ total df.nRows ≤ (entries.length : ℚ)
        rw [hlen]
        exact pctZ_le_cast total df.nRows rs.row_rules.length htot.2

/-- C2 counterexample: on a one-row dataset with two failing row rules,
the consistency check's global invalid percentage is 2 — greater than 1,
refuting the claim that it is at most 1. -/
theorem consistency_pct_exceeds_one :
    consGlobalPct (compute_consistency dfOneNull (some rulesTwoEq)) = some 2 ∧
    (1 : ℚ) < 2 :=
  ⟨by with_unfolding_all rfl, by norm_num⟩

/-- Concrete validity run of the percentage witness. -/
def vWit : ValidityMetrics × List Issue :=
  (⟨⟨0, pctOf 0 6⟩,
    [("a", ⟨0, pctOf 0 3, "string"⟩), ("b", ⟨0, pctOf 0 3, "string"⟩)]⟩, [])

/-- Concrete uniqueness run of the percentage witness. -/
def uWit : UniquenessMetrics × List Issue :=
  (⟨1, pctOf 1 3, [("id_cols", ⟨1, pctOf 1 3, ["id"]⟩)]⟩,
    [Issue.mk "duplicate_rows" [] 1 ["1"], Issue.mk "duplicate_key" ["id"] 1 ["1"]])

/-- Concrete consistency metrics of the percentage witness. -/
def cWitM : ConsistencyMetrics :=
  ⟨⟨2, pctZ 2 1⟩, [("r1", ⟨1, pctOf 1 1, "a == 1"⟩), ("r2", ⟨1, pctOf 1 1, "a == 2"⟩)]⟩

/-- Concrete consistency issues of the percentage witness. -/
def cWitI : List Issue :=
  [Issue.mk "row_rule_violation" [] 1 ["0"], Issue.mk "row_rule_violation" [] 1 ["0"]]

/-- Witness for C2 amended at concrete inputs: a validity run and a
uniqueness run that return, and the two-rule consistency run, whose
per-rule percentages are each 1 while the global percentage reaches the
rule count 2. -/
theorem percentage_bounds_witness :
    (compute_validity prims0 dfAB none [] = .ok vWit ∧
      (0 ≤ vWit.1.global.pct ∧ vWit.1.global.pct ≤ 1) ∧
      ∀ e ∈ vWit.1.columns, 0 ≤ e.2.invalid_pct ∧ e.2.invalid_pct ≤ 1) ∧
    (compute_uniqueness dfIdVal (some ["id"]) none = .ok uWit ∧
      (0 ≤ uWit.1.duplicate_rows_pct ∧ uWit.1.duplicate_rows_pct ≤ 1) ∧
      ∀ e ∈ uWit.1.duplicates_on_key, 0 ≤ e.2.pct ∧ e.2.pct ≤ 1) ∧
    ((∀ rule ∈ rowRulesOf (some rulesTwoEq),
        recoverableEval (evaluate_row_rule rule.expr dfOneNull) = true) ∧
      compute_consistency dfOneNull (some rulesTwoEq) = .ok (cWitM, cWitI) ∧
      (∀ e ∈ cWitM.rules, 0 ≤ e.2.invalid_pct ∧ e.2.invalid_pct ≤ 1) ∧
      0 ≤ cWitM.global.pct ∧ cWitM.global.pct ≤ (cWitM.rules.length : ℚ)) := by
  have hv : compute_validity prims0 dfAB none [] = .ok vWit := by
    with_unfolding_all rfl
  have hu : compute_uniqueness dfIdVal (some ["id"]) none = .ok uWit := by
    with_unfolding_all rfl
  have hg : ∀ rule ∈ rowRulesOf (some rulesTwoEq),
      recoverableEval (evaluate_row_rule rule.expr dfOneNull) = true := by
    intro rule hr
    rcases List.mem_cons.mp hr with h | h
    · rw [h]
      with_unfolding_all rfl
    · rcases List.mem_cons.mp h with h2 | h2
      · rw [h2]
        with_unfolding_all rfl
      · exact absurd h2 (List.not_mem_nil rule)
  have hc : compute_consistency dfOneNull (some rulesTwoEq) = .ok (cWitM, cWitI) := by
    with_unfolding_all rfl
  obtain ⟨hva, hvb⟩ := percentage_bounds.2.1 prims0 dfAB none [] vWit hv
  obtain ⟨hua, hub⟩ := percentage_bounds.2.2.1 dfIdVal (some ["id"]) none uWit hu
  obtain ⟨hca, hcb⟩ :=
    percentage_bounds.2.2.2.2.1 dfOneNull (some rulesTwoEq) cWitM cWitI hg hc
  exact ⟨⟨hv, hva, hvb⟩, ⟨hu, hua, hub⟩, ⟨hg, hc, hca, hcb⟩⟩

/-! Claim C1: error handling of `run_profile`. The consistency check
catches only `RulesError`; a pandas `TypeError` — raised for instance
when a row rule orders a string column against a number — propagates out
of `run_profile`, as do the `ValueError` of an empty unique-key group,
the `TypeError` of a string `min`/`max` bound and the `re.error` of an
invalid regex, all of which `load_rules` admits.  The recovery guarantee
below therefore carries one hypothesis per escape. -/

end DQA
